import Mathlib

/-!
Verification of the Semantic Memory Engine of the codememory VS Code
extension: a shallow embedding of `src/vectorstore/embeddings.ts`
(`EmbeddingGenerator`), `src/vectorstore/memoryVectorStore.ts`
(`MemoryVectorStore`), `src/vectorstore/vectorStore.ts` (the
chromadb-backed `VectorStore`) and `src/context/contextManager.ts`
(`ContextManager`), together with theorems settling the specification
claims about them.

Modelling conventions:
- JavaScript floating-point numbers are modelled as real numbers; the
  purely combinatorial layer (tokenizing, vocabulary bookkeeping,
  document-frequency counts, term frequencies, statistics, the memory
  ledger) is modelled computably over `String`, `Nat`, `Int` and `Rat`.
- A JavaScript `Map` is modelled as an association list in insertion
  order: `set` overwrites in place when the key is present and appends
  otherwise, matching `Map`'s iteration-order semantics.
- `Array.prototype.sort` (guaranteed stable, ascending by comparator)
  is modelled with `List.insertionSort`, which is stable for a total
  preorder.
-/

/-- Association-list update with JavaScript `Map.set` semantics:
overwrite in place when the key is present, append otherwise. -/
def mapSet {α : Type} : List (String × α) → String → α → List (String × α)
  | [], k, v => [(k, v)]
  | (k', v') :: rest, k, v =>
    if k' = k then (k', v) :: rest else (k', v') :: mapSet rest k v

/-- Association-list lookup (`Map.get`): first entry with the key. -/
def mapGet {α : Type} : List (String × α) → String → Option α
  | [], _ => none
  | (k', v') :: rest, k => if k' = k then some v' else mapGet rest k

/-- Association-list delete (`Map.delete`): drop entries with the key. -/
def mapDelete {α : Type} (m : List (String × α)) (k : String) :
    List (String × α) :=
  m.filter (fun p => p.1 ≠ k)

/-- Keys of an association list. -/
def mapKeys {α : Type} (m : List (String × α)) : List String :=
  m.map Prod.fst

/-- Counter bump used both by `computeTF` and by `getStats`:
`h[k] = (h[k] || 0) + 1` on a JavaScript `Map`/object. -/
def bump : List (String × Nat) → String → List (String × Nat)
  | [], k => [(k, 1)]
  | (k', n) :: rest, k =>
    if k' = k then (k', n + 1) :: rest else (k', n) :: bump rest k

/-- Word characters of the JavaScript regex class `\w`:
ASCII letters, digits and underscore. -/
def isWordChar (c : Char) : Bool :=
  c.isAlpha || c.isDigit || c = '_'

/-- Lowercased character list of a string (`text.toLowerCase()` on the
ASCII texts handled here). -/
def lowerChars (s : String) : List Char :=
  s.toList.map Char.toLower

/-- Maximal runs of word characters. `tokenize` first lowercases, then
replaces every character matching `[^\w\s]` with a space and splits on
`\s+`, filtering empty pieces; since `\w` characters are untouched and
every non-word character acts as a separator, the words are exactly the
maximal runs of word characters of the lowercased text. -/
def splitWordsAux : List Char → List Char → List (List Char)
  | [], acc => if acc.isEmpty then [] else [acc.reverse]
  | c :: cs, acc =>
    if isWordChar c then splitWordsAux cs (c :: acc)
    else if acc.isEmpty then splitWordsAux cs []
    else acc.reverse :: splitWordsAux cs []

/-- Words of a text: `text.toLowerCase().replace(/[^\w\s]/g, ' ').split(/\s+/).filter(t => t.length > 0)`. -/
def splitWords (s : String) : List String :=
  (splitWordsAux (lowerChars s) []).map String.mk

/-- Model of `EmbeddingGenerator.tokenize`: the words followed by the
adjacent-word bigrams `word_i + "_" + word_{i+1}`. -/
def tokenize (s : String) : List String :=
  let words := splitWords s
  words ++ (words.zip words.tail).map (fun p => p.1 ++ "_" ++ p.2)

/-- Substring test on character lists: does `p` occur contiguously in `l`?
Models JavaScript `String.prototype.includes`. -/
def startsWith : List Char → List Char → Bool
  | [], _ => true
  | _ :: _, [] => false
  | a :: p, b :: l => a = b && startsWith p l

/-- Occurrence of `p` as a contiguous substring of `l`. -/
def isSub (p : List Char) : List Char → Bool
  | [] => startsWith p []
  | l@(_ :: t) => startsWith p l || isSub p t

/-- Model of `doc.toLowerCase().includes(token)` from `computeIDF`. -/
def docContains (doc : String) (token : String) : Bool :=
  isSub token.toList (lowerChars doc)

/-- Document frequency of a token: the number of accumulated documents
whose lowercased text contains the token as a substring. -/
def dfCount (docs : List String) (token : String) : Nat :=
  (docs.filter (fun d => docContains d token)).length

/-- Model of `EmbeddingGenerator.updateVocabulary`: tokens not yet present are
appended, so a token's index is its position in this list. -/
def updateVocabulary (vocab : List String) (tokens : List String) :
    List String :=
  tokens.foldl (fun vc tok => if tok ∈ vc then vc else vc ++ [tok]) vocab

/-- Model of `this.vocabulary.get(token)`: the index assigned to a token
(its position in the vocabulary list). -/
def vocabIndex : List String → String → Option Nat
  | [], _ => none
  | v :: rest, t =>
    if v = t then some 0 else (vocabIndex rest t).map (· + 1)

/-- Model of `EmbeddingGenerator.computeTF`: per-token counts in first-occurrence
order (a `Map`), each divided by the total token count. -/
def computeTF (tokens : List String) : List (String × ℚ) :=
  (tokens.foldl bump []).map
    (fun p => (p.1, (p.2 : ℚ) / (tokens.length : ℚ)))

/-- Numerator and denominator of the logarithm argument in
`computeIDF`: `(N, df(token))` with `N = this.documents.length || 1`,
defined (`some`) exactly when the token is in the vocabulary and its
document frequency is positive; `none` corresponds to the token being
absent from the `idfScores` map. -/
def idfFrac (docs : List String) (vocab : List String) (t : String) :
    Option (Nat × Nat) :=
  if t ∈ vocab then
    let dc := dfCount docs t
    if 0 < dc then some (max docs.length 1, dc) else none
  else none

/-- A token whose IDF score is zero because its document count equals
the corpus size (`log(N/N) = 0`), or which is absent from the IDF map
(`|| 0` fallback). Tokens of this kind contribute weight `0`. -/
def idfNeutral (docs : List String) (vocab : List String)
    (t : String) : Bool :=
  match idfFrac docs vocab t with
  | some (a, b) => a == b
  | none => true

/-- The 32-bit signed wrap-around used by JavaScript `<<` and `&`. -/
def toInt32 (x : ℤ) : ℤ :=
  (x + 2 ^ 31) % 2 ^ 32 - 2 ^ 31

/-- Model of `EmbeddingGenerator.simpleHash`: `hash = ((hash << 5) - hash) + code`
followed by `hash = hash & hash` (a 32-bit signed coercion). -/
def simpleHash (s : String) : ℤ :=
  s.toList.foldl
    (fun h c => toInt32 (toInt32 (h * 32) - h + (c.toNat : ℤ))) 0

/-- Slot for a token whose vocabulary index exceeds the dimension:
`Math.abs(simpleHash(token) % 384)`. JavaScript `%` truncates toward
zero, so the absolute value of the remainder equals `|hash| % 384`. -/
def hashSlot (t : String) : Nat :=
  (simpleHash t).natAbs % 384

/-- Keyword groups of `addSemanticFeatures`, with their reserved indices. -/
def keywordFeatures : List (List String × Nat) :=
  [ (["function", "def", "func", "method"], 300)
  , (["class", "struct", "interface"], 301)
  , (["import", "require", "include", "from"], 302)
  , (["export", "module.exports", "public"], 303)
  , (["async", "await", "promise", "then"], 304)
  , (["return", "yield"], 305)
  , (["if", "else", "switch", "case"], 306)
  , (["for", "while", "foreach", "map"], 307)
  , (["try", "catch", "throw", "error"], 308)
  , (["const", "let", "var", "val"], 309)
  , (["new", "constructor", "init"], 310)
  , (["get", "set", "getter", "setter"], 311)
  , (["api", "endpoint", "route", "rest"], 312)
  , (["test", "spec", "describe", "it", "expect"], 313)
  , (["database", "query", "sql", "select"], 314) ]

/-- Number of keywords of a group appearing in the lowercased text. -/
def kwCount (text : String) (kws : List String) : Nat :=
  (kws.filter (fun kw => isSub kw.toList (lowerChars text))).length

/-- Count of non-overlapping occurrences of a two-character pattern,
as produced by a global regex such as `/=>/g`. -/
def count2 (x y : Char) : List Char → Nat
  | a :: b :: rest =>
    if a = x ∧ b = y then 1 + count2 x y rest else count2 x y (b :: rest)
  | _ => 0

/-- Match count of the greedy global regex `/\{[\s\S]*\}/g` (and its
parenthesis/bracket variants): `1` when an opening character is followed
somewhere later by a closing one — the greedy match then extends to the
last closer, leaving no further match — and `0` otherwise. -/
def pairCount (o c : Char) (l : List Char) : Nat :=
  match l.dropWhile (fun a => a ≠ o) with
  | [] => 0
  | _ :: rest => if rest.contains c then 1 else 0

/-- Structure-feature counts of `addSemanticFeatures`, applied to the
raw (not lowercased) text, with their reserved indices. -/
def structureCounts (text : String) : List (Nat × Nat) :=
  let cs := text.toList
  [ (pairCount '\x7b' '\x7d' cs, 320)
  , (pairCount '(' ')' cs, 321)
  , (pairCount '[' ']' cs, 322)
  , (count2 '=' '>' cs, 323)
  , (cs.count '.', 324)
  , (count2 ':' ':' cs, 325)
  , (count2 '-' '>' cs, 326) ]

/-- Embedding vectors: `this.dimension = 384` entries of JavaScript
numbers, modelled as real numbers indexed by `Fin 384`. -/
def Vec : Type := Fin 384 → ℝ

/-- The `new Array(this.dimension).fill(0)` starting vector. -/
def zeroVec : Vec := fun _ => 0

/-- State of an `EmbeddingGenerator` instance: the growing vocabulary,
the `idfScores` map (token to IDF score) and the accumulated document
list. `dimension` is the constant 384 carried in the type of `Vec`. -/
structure GenState where
  vocabulary : List String
  idfScores : String → Option ℝ
  documents : List String

/-- A fresh `EmbeddingGenerator` (`new EmbeddingGenerator()`). -/
def initGen : GenState :=
  { vocabulary := [], idfScores := fun _ => none, documents := [] }

/-- Model of `EmbeddingGenerator.computeIDF`: clear the map, then for every
vocabulary token with positive document frequency store
`Math.log(N / documentCount)`. -/
noncomputable def computeIDFuncOf (docs : List String)
    (vocab : List String) : String → Option ℝ :=
  fun t => (idfFrac docs vocab t).map
    (fun p => Real.log ((p.1 : ℝ) / (p.2 : ℝ)))

lemma hashSlot_lt (t : String) : hashSlot t < 384 :=
  Nat.mod_lt _ (by norm_num)

/-- TF-IDF weight of one token entry: `tfScore * idfScore` with
`idfScore = this.idfScores.get(token) || 0`. -/
noncomputable def tokenWeight (g : GenState) (p : String × ℚ) : ℝ :=
  (p.2 : ℝ) * ((g.idfScores p.1).getD 0)

/-- One step of the TF-IDF loop of `textToVector`: an in-range
vocabulary index is overwritten with `tf * idf`, an out-of-range one is
folded by hashing and accumulated (`+=`); a token without a vocabulary
index is skipped. -/
noncomputable def tfidfStep (g : GenState) (v : Vec) (p : String × ℚ) :
    Vec :=
  (vocabIndex g.vocabulary p.1).elim v (fun idx =>
    if h : idx < 384 then Function.update v ⟨idx, h⟩ (tokenWeight g p)
    else Function.update v ⟨hashSlot p.1, hashSlot_lt p.1⟩
      (v ⟨hashSlot p.1, hashSlot_lt p.1⟩ + tokenWeight g p))

/-- One keyword-group step of `addSemanticFeatures`: when at least one
keyword of the group occurs in the lowercased text, the reserved index
is overwritten with `count / keywords.length`. -/
noncomputable def keywordStep (text : String) (v : Vec)
    (f : List String × Nat) : Vec :=
  let count := kwCount text f.1
  if h : 0 < count ∧ f.2 < 384 then
    Function.update v ⟨f.2, h.2⟩ ((count : ℝ) / (f.1.length : ℝ))
  else v

/-- One structure-pattern step of `addSemanticFeatures`: when the
pattern matches (`text.match` is non-null), the reserved index is
overwritten with `Math.min(matches.length / 10, 1)`. -/
noncomputable def structureStep (v : Vec) (f : Nat × Nat) : Vec :=
  if h : 0 < f.1 ∧ f.2 < 384 then
    Function.update v ⟨f.2, h.2⟩ (min ((f.1 : ℝ) / 10) 1)
  else v

/-- Model of `EmbeddingGenerator.addSemanticFeatures` applied to a vector. -/
noncomputable def addSemanticFeatures (text : String) (v : Vec) : Vec :=
  (structureCounts text).foldl structureStep
    (keywordFeatures.foldl (keywordStep text) v)

/-- The unnormalized vector of `textToVector`: TF-IDF weights assembled
into the zero vector, then semantic and structure features. -/
noncomputable def rawVector (g : GenState) (text : String) : Vec :=
  addSemanticFeatures text
    ((computeTF (tokenize text)).foldl (tfidfStep g) zeroVec)

/-- Euclidean magnitude of a vector
(`Math.sqrt(vector.reduce((s, v) => s + v * v, 0))`). -/
noncomputable def magnitude (v : Vec) : ℝ :=
  Real.sqrt (∑ i : Fin 384, v i ^ 2)

/-- Final normalization of `textToVector`: divide by the magnitude when
it is positive, otherwise return the vector unchanged. -/
noncomputable def normalizeVec (v : Vec) : Vec :=
  if 0 < magnitude v then fun i => v i / magnitude v else v

/-- Model of `EmbeddingGenerator.textToVector` against a given generator state. -/
noncomputable def textToVector (g : GenState) (text : String) : Vec :=
  normalizeVec (rawVector g text)

/-- Model of `EmbeddingGenerator.generate`: push the text onto the document
list, extend the vocabulary with its tokens, recompute IDF over the
whole corpus, then vectorize the text in the updated state. -/
noncomputable def generate (g : GenState) (text : String) :
    Vec × GenState :=
  let docs' := g.documents ++ [text]
  let vocab' := updateVocabulary g.vocabulary (tokenize text)
  let g' : GenState :=
    { vocabulary := vocab'
      idfScores := computeIDFuncOf docs' vocab'
      documents := docs' }
  (textToVector g' text, g')

/-- Model of `EmbeddingGenerator.generateBatch`: push every text and its tokens,
recompute IDF once, then vectorize each text in the final state. -/
noncomputable def generateBatch (g : GenState) (texts : List String) :
    List Vec × GenState :=
  let docs' := g.documents ++ texts
  let vocab' :=
    texts.foldl (fun vc t => updateVocabulary vc (tokenize t))
      g.vocabulary
  let g' : GenState :=
    { vocabulary := vocab'
      idfScores := computeIDFuncOf docs' vocab'
      documents := docs' }
  (texts.map (fun t => textToVector g' t), g')

/-- Model of `MemoryVectorStore.cosineSimilarity`: dot product over the 384
entries divided by the product of the Euclidean norms (each computed
exactly as `magnitude`), with result `0` when either norm is zero. -/
noncomputable def cosineSimilarity (a b : Vec) : ℝ :=
  if magnitude a = 0 ∨ magnitude b = 0 then 0
  else (∑ i : Fin 384, a i * b i) / (magnitude a * magnitude b)

/-- Value held by `metadata.lastModified` in memory. The indexer stores
a JavaScript `Date` (epoch milliseconds); after a JSON round trip the
field instead holds the ISO string that `JSON.stringify` wrote, since
`JSON.parse` does not revive dates. -/
inductive JsTime where
  | date (ms : ℤ)
  | str (s : String)
deriving DecidableEq

/-- Left-pad a decimal rendering with zeros to the given width. -/
def pad (w : Nat) (n : Nat) : String :=
  let s := toString n
  if s.length < w then String.mk (List.replicate (w - s.length) '0') ++ s
  else s

/-- Gregorian calendar date (year, month, day) of a day count relative
to the epoch (the standard civil-from-days conversion). -/
def civilFromDays (z0 : ℤ) : ℤ × Nat × Nat :=
  let z := z0 + 719468
  let era := z.fdiv 146097
  let doe := (z - era * 146097).toNat
  let yoe := (doe - doe / 1460 + doe / 36524 - doe / 146096) / 365
  let y := (yoe : ℤ) + era * 400
  let doy := doe - (365 * yoe + yoe / 4 - yoe / 100)
  let mp := (5 * doy + 2) / 153
  let d := doy - (153 * mp + 2) / 5 + 1
  let m := if mp < 10 then mp + 3 else mp - 9
  (if m ≤ 2 then y + 1 else y, m, d)

/-- Rendering of `Date.prototype.toISOString` (UTC,
`YYYY-MM-DDTHH:MM:SS.sssZ`) for the years 0-9999, which cover every
value the indexer's `new Date()` produces. -/
def dateToIsoString (ms : ℤ) : String :=
  let day := ms.fdiv 86400000
  let rem := (ms - day * 86400000).toNat
  let ymd := civilFromDays day
  pad 4 ymd.1.toNat ++ "-" ++ pad 2 ymd.2.1 ++ "-" ++ pad 2 ymd.2.2 ++
  "T" ++ pad 2 (rem / 3600000) ++ ":" ++ pad 2 (rem % 3600000 / 60000) ++
  ":" ++ pad 2 (rem % 60000 / 1000) ++ "." ++ pad 3 (rem % 1000) ++ "Z"

/-- JSON round trip of a `lastModified` value: `JSON.stringify`
serializes a `Date` via `toJSON` as its ISO string, and `JSON.parse`
leaves that string a string; a string round-trips unchanged. -/
def jsonTime : JsTime → JsTime
  | JsTime.date ms => JsTime.str (dateToIsoString ms)
  | JsTime.str s => JsTime.str s

/-- Optional metadata of a `CodeChunk` (`signature`, `docstring`,
`dependencies`, `complexity`, `lastModified`). -/
structure ChunkMetadata where
  signature : Option String
  docstring : Option String
  dependencies : Option (List String)
  complexity : Option ℚ
  lastModified : Option JsTime
deriving DecidableEq

/-- A `CodeChunk` record as supplied by the producers. `type` is one of
the six kind strings in well-formed chunks but is looked up as a plain
string everywhere in the engine. -/
structure CodeChunk where
  id : String
  filepath : String
  content : String
  type : String
  name : String
  startLine : ℤ
  endLine : ℤ
  language : String
  parentId : Option String
  metadata : ChunkMetadata
deriving DecidableEq

/-- Model of `path.basename`: the part of the path after the last `/`
(the paths in this development contain no separators). -/
def basename (p : String) : String :=
  match (p.toList.reverse.takeWhile (fun c => c ≠ '/')) with
  | cs => String.mk cs.reverse

/-- Model of `MemoryVectorStore.createChunkText`: the canonical text
representation of a chunk that is embedded and searched. -/
def createChunkText (c : CodeChunk) : String :=
  "Type: " ++ c.type ++ "\n" ++
  "Name: " ++ c.name ++ "\n" ++
  "Language: " ++ c.language ++ "\n" ++
  "File: " ++ basename c.filepath ++
  (match c.metadata.signature with
   | some s => "\n" ++ "Signature: " ++ s
   | none => "") ++
  (match c.metadata.docstring with
   | some d => "\n" ++ "Documentation: " ++ d
   | none => "") ++
  "\n" ++ "Code:\n" ++ c.content

/-- A stored entry of the `MemoryVectorStore`: the chunk and its
embedding. -/
structure StoredChunk where
  chunk : CodeChunk
  embedding : Vec

/-- State of a `MemoryVectorStore`: the id-keyed chunk map (insertion
order preserved) and the owned `EmbeddingGenerator`. -/
structure Store where
  chunks : List (String × StoredChunk)
  gen : GenState

/-- A freshly constructed `MemoryVectorStore` over an empty snapshot. -/
def emptyStore : Store :=
  { chunks := [], gen := initGen }

/-- Model of `MemoryVectorStore.initialize`: the embedded generator's
`initialize` only logs, so the store state is unchanged — no
initialization flag exists on this class. -/
def memInitialize (s : Store) (_projectName : String) : Store :=
  s

/-- One search hit: the stored chunk and its distance
(`1 - cosineSimilarity`). -/
structure VectorSearchResult where
  chunk : CodeChunk
  score : ℝ

/-- Comparator of `search`: ascending by score
(`results.sort((a, b) => a.score - b.score)`). -/
def scoreLe (a b : VectorSearchResult) : Prop :=
  a.score ≤ b.score

/-- Model of `MemoryVectorStore.addChunks`: embed all chunk texts in one
`generateBatch` call, then store each `{chunk, embedding}` under
`chunk.id` with overwrite semantics. -/
noncomputable def addChunks (s : Store) (cs : List CodeChunk) : Store :=
  let r := generateBatch s.gen (cs.map createChunkText)
  { chunks :=
      (cs.zip r.1).foldl
        (fun m p => mapSet m p.1.id ⟨p.1, p.2⟩) s.chunks
    gen := r.2 }

open Classical in
/-- Model of `MemoryVectorStore.search`: embed the query (mutating the shared
generator state), score every stored chunk by distance, sort ascending
(stably) and keep the first `k`. -/
noncomputable def searchRun (s : Store) (query : String) (k : Nat) :
    List VectorSearchResult × Store :=
  let r := generate s.gen query
  let scored := s.chunks.map
    (fun p => ⟨p.2.chunk, 1 - cosineSimilarity r.1 p.2.embedding⟩)
  ((List.insertionSort scoreLe scored).take k,
   { chunks := s.chunks, gen := r.2 })

/-- The result list of `search`. -/
noncomputable def searchResults (s : Store) (query : String) (k : Nat) :
    List VectorSearchResult :=
  (searchRun s query k).1

/-- Model of `MemoryVectorStore.searchByCode`: search with the snippet behind a
fixed instructional prefix string. -/
noncomputable def searchByCode (s : Store) (snippet : String) (k : Nat) :
    List VectorSearchResult × Store :=
  searchRun s ("Code similar to: " ++ snippet) k

/-- Model of `MemoryVectorStore.getChunkById`: direct map lookup, `null` when
absent. -/
def getChunkById (s : Store) (chunkId : String) : Option CodeChunk :=
  (mapGet s.chunks chunkId).map (fun sc => sc.chunk)

/-- Model of `MemoryVectorStore.getRelatedChunks`: empty when the id is unknown;
otherwise search with the chunk's canonical text and `k + 1`, drop the
chunk itself and keep the first `k`. -/
noncomputable def getRelatedChunks (s : Store) (chunkId : String)
    (k : Nat) : List VectorSearchResult × Store :=
  match getChunkById s chunkId with
  | none => ([], s)
  | some c =>
    let r := searchRun s (createChunkText c) (k + 1)
    ((r.1.filter (fun x => x.chunk.id ≠ chunkId)).take k, r.2)

/-- Model of `MemoryVectorStore.updateChunk`: recompute a single embedding via
`generate` and overwrite the entry in place. -/
noncomputable def updateChunk (s : Store) (c : CodeChunk) : Store :=
  let r := generate s.gen (createChunkText c)
  { chunks := mapSet s.chunks c.id ⟨c, r.1⟩, gen := r.2 }

/-- Model of `MemoryVectorStore.deleteChunks`: remove each id from the map. -/
def deleteChunks (s : Store) (ids : List String) : Store :=
  { chunks := ids.foldl mapDelete s.chunks, gen := s.gen }

/-- Result of `MemoryVectorStore.getStats`. -/
structure StoreStats where
  totalChunks : Nat
  chunksByType : List (String × Nat)
  chunksByLanguage : List (String × Nat)

/-- Model of `MemoryVectorStore.getStats`: total count plus histograms keyed by
`type` and `language` built by iterating over the stored chunks. -/
def getStats (s : Store) : StoreStats :=
  { totalChunks := s.chunks.length
    chunksByType :=
      s.chunks.foldl (fun h p => bump h p.2.chunk.type) []
    chunksByLanguage :=
      s.chunks.foldl (fun h p => bump h p.2.chunk.language) [] }

/-- Image of one chunk under the `JSON.stringify`/`JSON.parse` round
trip of the persisted snapshot: every field is a string, number, array
or absent and round-trips exactly, except a `Date` held in
`metadata.lastModified`, which is written as its ISO string and read
back as that string. -/
def jsonChunk (c : CodeChunk) : CodeChunk :=
  { c with metadata :=
      { c.metadata with
        lastModified := c.metadata.lastModified.map jsonTime } }

/-- The persisted snapshot written by `MemoryVectorStore.saveToDisk`
(a JSON array of `{id, chunk, embedding}`), modelled as the entry list
as it reads back out of the JSON text: chunk values carry the
`jsonChunk` image (`Date` becomes its ISO string); ids and the finite
doubles of the embeddings round-trip exactly. -/
def saveToDisk (s : Store) : List (String × StoredChunk) :=
  s.chunks.map (fun p => (p.1, StoredChunk.mk (jsonChunk p.2.chunk) p.2.embedding))

/-- Model of `MemoryVectorStore.loadFromDisk` into a fresh store: replay
`chunks.set(item.id, {chunk, embedding})` over the parsed snapshot
entries. -/
def loadFromDisk (data : List (String × StoredChunk)) :
    List (String × StoredChunk) :=
  data.foldl (fun m p => mapSet m p.1 p.2) []

/-- Feedback tag of a `MemoryEntry` (`'helpful' | 'not-helpful'`). -/
inductive Feedback where
  | helpful
  | notHelpful
deriving DecidableEq

/-- A `MemoryEntry` of the interaction ledger. Timestamps are the
millisecond values of `Date.getTime()`. The free-form `context` field
(a snapshot of the project context) plays no role in the ledger logic
and is not modelled. -/
structure MemoryEntry where
  id : String
  timestamp : ℤ
  query : String
  response : String
  relevantChunks : List String
  feedback : Option Feedback
deriving DecidableEq

/-- Ledger state of a `ContextManager`: the id-keyed `memoryEntries`
map. `maxMemoryEntries = 1000`. -/
structure LedgerState where
  memoryEntries : List (String × MemoryEntry)

/-- Comparator of `saveMemoryEntries`: newest first
(`(a, b) => b.timestamp.getTime() - a.timestamp.getTime()`). -/
def newerLe (a b : MemoryEntry) : Prop :=
  b.timestamp ≤ a.timestamp

instance : DecidableRel newerLe := fun a b =>
  inferInstanceAs (Decidable (b.timestamp ≤ a.timestamp))

/-- Model of `ContextManager.saveMemoryEntries`: the ledger actually written to
disk — the map's values sorted newest-first and truncated to the most
recent `maxMemoryEntries = 1000`. -/
def persistedLedger (cm : LedgerState) : List MemoryEntry :=
  (List.insertionSort newerLe (cm.memoryEntries.map Prod.snd)).take 1000

/-- Model of `ContextManager.recordMemoryEntry`: build the entry from a fresh
`nanoid()` and the current time, put it into the map and persist. The
persisted file is `persistedLedger` of the resulting state. -/
def recordMemoryEntry (cm : LedgerState) (freshId : String) (now : ℤ)
    (query response : String) (relevantChunks : List String)
    (feedback : Option Feedback) : LedgerState × MemoryEntry :=
  let entry : MemoryEntry :=
    { id := freshId, timestamp := now, query := query
      response := response, relevantChunks := relevantChunks
      feedback := feedback }
  ({ memoryEntries := mapSet cm.memoryEntries entry.id entry }, entry)

/-- A sequence of `recordMemoryEntry` calls, given the fresh id, the
clock value and the payload of each call. -/
def recordSeq (cm : LedgerState)
    (calls : List (String × ℤ × String × String)) : LedgerState :=
  calls.foldl
    (fun st c => (recordMemoryEntry st c.1 c.2.1 c.2.2.1 c.2.2.2 [] none).1)
    cm

/-- Per-type weight table of `calculateChunkImportance`, with the `0.5`
base for any type outside the table (`typeWeights[chunk.type] ||
importance`). -/
def typeWeight (t : String) : ℚ :=
  if t = "class" then 8/10
  else if t = "function" then 7/10
  else if t = "method" then 6/10
  else if t = "module" then 9/10
  else if t = "variable" then 4/10
  else if t = "import" then 3/10
  else 5/10

/-- Model of `ContextManager.calculateChunkImportance`: the per-type weight,
plus `0.1` for a docstring, plus `0.1` for spanning more than 50 lines
and another `0.1` for more than 100, capped at `1.0`. -/
def calculateChunkImportance (c : CodeChunk) : ℚ :=
  let importance := typeWeight c.type
  let importance :=
    importance + (if c.metadata.docstring.isSome then 1/10 else 0)
  let lines := c.endLine - c.startLine + 1
  let importance := importance + (if 50 < lines then 1/10 else 0)
  let importance := importance + (if 100 < lines then 1/10 else 0)
  min importance 1

/-- Importance read off the specification sentence: "base 0.5
overridden by a per-type weight table (module 0.9, class 0.8, function
0.7, method 0.6, variable 0.4, import 0.3); +0.1 if a docstring is
present; +0.1 if chunk spans more than 50 lines, another +0.1 if more
than 100; capped at 1.0". -/
def specImportance (c : CodeChunk) : ℚ :=
  let w : ℚ :=
    if c.type = "module" then 9/10
    else if c.type = "class" then 8/10
    else if c.type = "function" then 7/10
    else if c.type = "method" then 6/10
    else if c.type = "variable" then 4/10
    else if c.type = "import" then 3/10
    else 5/10
  let d : ℚ := if c.metadata.docstring.isSome then 1/10 else 0
  let lines := c.endLine - c.startLine + 1
  let l1 : ℚ := if 50 < lines then 1/10 else 0
  let l2 : ℚ := if 100 < lines then 1/10 else 0
  min (w + d + l1 + l2) 1

/-- Handle on a chromadb collection held by the chromadb-backed
`VectorStore` (`src/vectorstore/vectorStore.ts`). The collection's
behaviour lives in the external chromadb library; only its presence
matters for the initialization guards. -/
structure ChromaCollection where
  handle : Unit

/-- Errors surfaced by the chromadb-backed `VectorStore`. -/
inductive VSError where
  | notInitialized
deriving DecidableEq

/-- State of the chromadb-backed `VectorStore`: `collection` is `null`
from construction until `initialize` assigns it. -/
structure ChromaStore where
  collection : Option ChromaCollection

/-- Guard shared by every operation of the chromadb-backed
`VectorStore`: `if (!this.collection) throw new Error('Vector store not
initialized')`, then delegate to the external collection. -/
def chromaGuard {α : Type} (s : ChromaStore)
    (body : ChromaCollection → α) : Except VSError α :=
  match s.collection with
  | none => Except.error VSError.notInitialized
  | some c => Except.ok (body c)

/-- Model of `VectorStore.addChunks` (chromadb-backed): guard, then
`collection.add` in the external library. -/
def chromaAddChunks (s : ChromaStore) (cs : List CodeChunk)
    (add : ChromaCollection → List CodeChunk → Unit) :
    Except VSError Unit :=
  chromaGuard s (fun c => add c cs)

/-- Model of `VectorStore.search` (chromadb-backed): guard, then
`collection.query` in the external library. -/
def chromaSearch (s : ChromaStore) (query : String) (k : Nat)
    (run : ChromaCollection → String → Nat → List VectorSearchResult) :
    Except VSError (List VectorSearchResult) :=
  chromaGuard s (fun c => run c query k)

/-- Model of `VectorStore.searchByCode` (chromadb-backed): `search` with the
fixed instructional query. -/
def chromaSearchByCode (s : ChromaStore) (snippet : String) (k : Nat)
    (run : ChromaCollection → String → Nat → List VectorSearchResult) :
    Except VSError (List VectorSearchResult) :=
  chromaSearch s ("Code similar to: " ++ snippet) k run

/-- Model of `VectorStore.getRelatedChunks` (chromadb-backed): the guard fires
before the id lookup. -/
def chromaGetRelatedChunks (s : ChromaStore) (chunkId : String) (k : Nat)
    (run : ChromaCollection → String → Nat → List VectorSearchResult) :
    Except VSError (List VectorSearchResult) :=
  match s.collection with
  | none => Except.error VSError.notInitialized
  | some c => Except.ok ((run c chunkId (k + 1)).filter
      (fun r => r.chunk.id ≠ chunkId) |>.take k)

/-- Model of `VectorStore.getChunkById` (chromadb-backed): guard, then
`collection.get`. -/
def chromaGetChunkById (s : ChromaStore) (chunkId : String)
    (get : ChromaCollection → String → Option CodeChunk) :
    Except VSError (Option CodeChunk) :=
  chromaGuard s (fun c => get c chunkId)

/-- Model of `VectorStore.updateChunk` (chromadb-backed): guard, then
`collection.update`. -/
def chromaUpdateChunk (s : ChromaStore) (c : CodeChunk)
    (upd : ChromaCollection → CodeChunk → Unit) : Except VSError Unit :=
  chromaGuard s (fun col => upd col c)

/-- Model of `VectorStore.deleteChunks` (chromadb-backed): guard, then
`collection.delete`. -/
def chromaDeleteChunks (s : ChromaStore) (ids : List String)
    (del : ChromaCollection → List String → Unit) : Except VSError Unit :=
  chromaGuard s (fun c => del c ids)

/-- Model of `VectorStore.getStats` (chromadb-backed): guard, then aggregate
`collection.get()`. -/
def chromaGetStats (s : ChromaStore)
    (get : ChromaCollection → StoreStats) : Except VSError StoreStats :=
  chromaGuard s get

lemma mapGet_mapSet_self {α : Type} (m : List (String × α)) (k : String)
    (v : α) : mapGet (mapSet m k v) k = some v := by
  induction m with
  | nil => simp [mapSet, mapGet]
  | cons p rest ih =>
    obtain ⟨k', v'⟩ := p
    by_cases h : k' = k
    · simp [mapSet, mapGet, h]
    · simp [mapSet, mapGet, h, ih]

lemma mapGet_mapSet_ne {α : Type} (m : List (String × α))
    {k k' : String} (v : α) (h : k' ≠ k) :
    mapGet (mapSet m k v) k' = mapGet m k' := by
  induction m with
  | nil => simp [mapSet, mapGet, Ne.symm h]
  | cons p rest ih =>
    obtain ⟨k₀, v₀⟩ := p
    by_cases hk : k₀ = k
    · subst hk
      simp [mapSet, mapGet, Ne.symm h]
    · simp only [mapSet, if_neg hk]
      by_cases hk' : k₀ = k'
      · simp [mapGet, hk']
      · simp [mapGet, hk', ih]

lemma mem_mapSet {α : Type} {m : List (String × α)} {k : String} {v : α}
    {p : String × α} (h : p ∈ mapSet m k v) : p = (k, v) ∨ p ∈ m := by
  induction m with
  | nil => simpa [mapSet] using h
  | cons q rest ih =>
    obtain ⟨k₀, v₀⟩ := q
    by_cases hk : k₀ = k
    · subst hk
      rcases (by simpa [mapSet] using h : p = (k₀, v) ∨ p ∈ rest) with h1 | h1
      · exact Or.inl (by simpa using h1)
      · exact Or.inr (List.mem_cons_of_mem _ h1)
    · rcases (by simpa [mapSet, hk] using h :
          p = (k₀, v₀) ∨ p ∈ mapSet rest k v) with h1 | h1
      · exact Or.inr (by simp [h1])
      · rcases ih h1 with h2 | h2
        · exact Or.inl h2
        · exact Or.inr (List.mem_cons_of_mem _ h2)

lemma mapKeys_cons {α : Type} (k : String) (v : α)
    (m : List (String × α)) :
    mapKeys ((k, v) :: m) = k :: mapKeys m := by
  simp [mapKeys]

lemma mapSet_of_not_mem {α : Type} {m : List (String × α)} {k : String}
    (v : α) (h : k ∉ mapKeys m) : mapSet m k v = m ++ [(k, v)] := by
  induction m with
  | nil => simp [mapSet]
  | cons q rest ih =>
    obtain ⟨k₀, v₀⟩ := q
    rw [mapKeys_cons] at h
    have hk : k₀ ≠ k := fun hh => h (by simp [hh])
    have hr : k ∉ mapKeys rest := fun hh => h (by simp [hh])
    simp [mapSet, hk, ih hr]

lemma load_replay {α : Type} :
    ∀ (l m : List (String × α)), (mapKeys l).Nodup →
    (∀ k ∈ mapKeys l, k ∉ mapKeys m) →
    l.foldl (fun acc p => mapSet acc p.1 p.2) m = m ++ l := by
  intro l
  induction l with
  | nil => intro m _ _; simp
  | cons q rest ih =>
    intro m hnd hdis
    obtain ⟨k, v⟩ := q
    rw [mapKeys_cons] at hnd hdis
    have hk : k ∉ mapKeys m := hdis k (by simp)
    obtain ⟨hknotr, hnd'⟩ := List.nodup_cons.mp hnd
    have hdis' : ∀ k' ∈ mapKeys rest, k' ∉ mapKeys (m ++ [(k, v)]) := by
      intro k' hk' hmem
      have : mapKeys (m ++ [(k, v)]) = mapKeys m ++ [k] := by
        simp [mapKeys]
      rw [this] at hmem
      rcases List.mem_append.mp hmem with hmem | hmem
      · exact hdis k' (by simp [hk']) hmem
      · have : k' = k := by simpa using hmem
        subst this
        exact hknotr hk'
    calc ((k, v) :: rest).foldl (fun acc p => mapSet acc p.1 p.2) m
        = rest.foldl (fun acc p => mapSet acc p.1 p.2)
            (m ++ [(k, v)]) := by
          simp [mapSet_of_not_mem v hk]
      _ = (m ++ [(k, v)]) ++ rest := ih _ hnd' hdis'
      _ = m ++ ((k, v) :: rest) := by simp

lemma bump_sum (h : List (String × Nat)) (k : String) :
    ((bump h k).map Prod.snd).sum = (h.map Prod.snd).sum + 1 := by
  induction h with
  | nil => simp [bump]
  | cons q rest ih =>
    obtain ⟨k₀, n⟩ := q
    by_cases hk : k₀ = k
    · simp [bump, hk]
      ring
    · simp [bump, hk, ih]
      ring

instance : IsTotal VectorSearchResult scoreLe :=
  ⟨fun a b => le_total a.score b.score⟩

instance : IsTrans VectorSearchResult scoreLe :=
  ⟨fun _ _ _ h1 h2 => le_trans h1 h2⟩

instance : IsTotal MemoryEntry newerLe :=
  ⟨fun a b => le_total b.timestamp a.timestamp⟩

instance : IsTrans MemoryEntry newerLe :=
  ⟨fun _ _ _ h1 h2 => le_trans h2 h1⟩

lemma sorted_head_le {α : Type} {r : α → α → Prop} [IsTotal α r]
    {x : α} {t : List α} (hs : List.Sorted r (x :: t)) :
    ∀ y ∈ x :: t, r x y := by
  intro y hy
  rcases List.mem_cons.mp hy with hy | hy
  · subst hy
    rcases IsTotal.total (r := r) y y with h | h <;> exact h
  · exact List.rel_of_sorted_cons hs y hy

/-- Property required of every embedding by the specification: unit
Euclidean norm or the all-zero vector. The dimension (exactly 384
entries) is carried by the type `Vec` itself. -/
def isUnitOrZero (v : Vec) : Prop :=
  magnitude v = 1 ∨ v = zeroVec

lemma sum_sq_nonneg (v : Vec) : 0 ≤ ∑ i : Fin 384, v i ^ 2 :=
  Finset.sum_nonneg fun i _ => sq_nonneg (v i)

lemma magnitude_nonneg (v : Vec) : 0 ≤ magnitude v := by
  unfold magnitude
  exact Real.sqrt_nonneg _

lemma magnitude_eq_zero {v : Vec} (h : magnitude v = 0) : v = zeroVec := by
  have hsum : ∑ i : Fin 384, v i ^ 2 = 0 := by
    have h0 : ∑ i : Fin 384, v i ^ 2 ≤ 0 := Real.sqrt_eq_zero'.mp h
    exact le_antisymm h0 (sum_sq_nonneg v)
  funext i
  have h1 := (Finset.sum_eq_zero_iff_of_nonneg
    (fun j _ => sq_nonneg (v j))).mp hsum i (Finset.mem_univ i)
  have h2 := pow_eq_zero_iff (n := 2) (by norm_num) |>.mp h1
  simpa [zeroVec] using h2

lemma normalizeVec_unitOrZero (v : Vec) : isUnitOrZero (normalizeVec v) := by
  by_cases h : 0 < magnitude v
  · left
    have hne : magnitude v ≠ 0 := ne_of_gt h
    have hm : magnitude v ^ 2 = ∑ i : Fin 384, v i ^ 2 :=
      Real.sq_sqrt (sum_sq_nonneg v)
    have hsum : ∑ i : Fin 384, (v i / magnitude v) ^ 2 = 1 := by
      calc ∑ i : Fin 384, (v i / magnitude v) ^ 2
          = ∑ i : Fin 384, v i ^ 2 / magnitude v ^ 2 :=
            Finset.sum_congr rfl fun i _ => div_pow _ _ _
        _ = (∑ i : Fin 384, v i ^ 2) / magnitude v ^ 2 :=
            (Finset.sum_div _ _ _).symm
        _ = 1 := by rw [← hm, div_self (pow_ne_zero _ hne)]
    have hv : normalizeVec v = fun i => v i / magnitude v := by
      unfold normalizeVec
      rw [if_pos h]
    rw [hv]
    show Real.sqrt (∑ i : Fin 384, (v i / magnitude v) ^ 2) = 1
    rw [hsum, Real.sqrt_one]
  · right
    have h0 : magnitude v = 0 :=
      le_antisymm (le_of_not_gt h) (magnitude_nonneg v)
    have hz := magnitude_eq_zero h0
    unfold normalizeVec
    rw [if_neg h]
    exact hz

lemma cosineSimilarity_le_one (a b : Vec) : cosineSimilarity a b ≤ 1 := by
  unfold cosineSimilarity
  split_ifs with h
  · norm_num
  · push_neg at h
    have ha : 0 < magnitude a :=
      lt_of_le_of_ne (magnitude_nonneg a) (Ne.symm h.1)
    have hb : 0 < magnitude b :=
      lt_of_le_of_ne (magnitude_nonneg b) (Ne.symm h.2)
    rw [div_le_one (mul_pos ha hb)]
    have hsq : (∑ i : Fin 384, a i * b i) ^ 2 ≤
        (∑ i : Fin 384, a i ^ 2) * ∑ i : Fin 384, b i ^ 2 :=
      Finset.sum_mul_sq_le_sq_mul_sq _ _ _
    have habs : |∑ i : Fin 384, a i * b i| ≤ magnitude a * magnitude b := by
      have h1 : |∑ i : Fin 384, a i * b i| =
          Real.sqrt ((∑ i : Fin 384, a i * b i) ^ 2) :=
        (Real.sqrt_sq_eq_abs _).symm
      unfold magnitude
      rw [h1, ← Real.sqrt_mul (sum_sq_nonneg a)]
      exact Real.sqrt_le_sqrt hsq
    exact le_trans (le_abs_self _) habs

lemma cosineSimilarity_nonneg_score (a b : Vec) :
    0 ≤ 1 - cosineSimilarity a b :=
  sub_nonneg.mpr (cosineSimilarity_le_one a b)

lemma magnitude_zeroVec : magnitude zeroVec = 0 := by
  unfold magnitude
  simp [zeroVec]

lemma cosineSimilarity_zero_right (a : Vec) :
    cosineSimilarity a zeroVec = 0 := by
  unfold cosineSimilarity
  rw [if_pos (Or.inr magnitude_zeroVec)]

/-- One-hot vector used to describe the raw vectors of the concrete
scenarios below. -/
noncomputable def oneHot (j : Fin 384) (w : ℝ) : Vec :=
  Function.update zeroVec j w

lemma oneHot_apply (j : Fin 384) (w : ℝ) (i : Fin 384) :
    oneHot j w i = if i = j then w else 0 := by
  unfold oneHot
  by_cases h : i = j
  · subst h
    simp
  · simp [Function.update, h, zeroVec]

lemma sum_sq_oneHot (j : Fin 384) (w : ℝ) :
    ∑ i : Fin 384, oneHot j w i ^ 2 = w ^ 2 := by
  have h : ∀ i : Fin 384, oneHot j w i ^ 2 = if i = j then w ^ 2 else 0 := by
    intro i
    rw [oneHot_apply]
    by_cases h : i = j <;> simp [h]
  rw [Finset.sum_congr rfl fun i _ => h i]
  simp [Finset.sum_ite_eq']

lemma magnitude_oneHot (j : Fin 384) {w : ℝ} (hw : 0 ≤ w) :
    magnitude (oneHot j w) = w := by
  unfold magnitude
  rw [sum_sq_oneHot, Real.sqrt_sq hw]

lemma normalizeVec_oneHot (j : Fin 384) {w : ℝ} (hw : 0 < w) :
    normalizeVec (oneHot j w) = oneHot j 1 := by
  unfold normalizeVec
  rw [if_pos (by rw [magnitude_oneHot j hw.le]; exact hw)]
  funext i
  rw [magnitude_oneHot j hw.le, oneHot_apply, oneHot_apply]
  by_cases h : i = j
  · simp [h, div_self (ne_of_gt hw)]
  · simp [h]

lemma dot_oneHot_one (j : Fin 384) :
    ∑ i : Fin 384, oneHot j 1 i * oneHot j 1 i = 1 := by
  have h : ∀ i : Fin 384, oneHot j 1 i * oneHot j 1 i
      = if i = j then (1 : ℝ) else 0 := by
    intro i
    rw [oneHot_apply]
    by_cases h : i = j <;> simp [h]
  rw [Finset.sum_congr rfl fun i _ => h i]
  simp [Finset.sum_ite_eq']

lemma cosineSimilarity_oneHot_self (j : Fin 384) :
    cosineSimilarity (oneHot j 1) (oneHot j 1) = 1 := by
  unfold cosineSimilarity
  have hm : magnitude (oneHot j 1) = 1 := magnitude_oneHot j (by norm_num)
  rw [if_neg (by rw [hm]; norm_num)]
  rw [dot_oneHot_one, hm]
  norm_num

lemma normalizeVec_zeroVec : normalizeVec zeroVec = zeroVec := by
  unfold normalizeVec
  rw [if_neg (by rw [magnitude_zeroVec]; norm_num)]

lemma tfidfStep_noop {g : GenState} {v : Vec} {p : String × ℚ}
    (hw : tokenWeight g p = 0)
    (hv : ∀ m (hm : m < 384), vocabIndex g.vocabulary p.1 = some m →
      v ⟨m, hm⟩ = 0) :
    tfidfStep g v p = v := by
  unfold tfidfStep
  cases hidx : vocabIndex g.vocabulary p.1 with
  | none => rfl
  | some idx =>
    rw [Option.elim_some]
    by_cases h : idx < 384
    · rw [dif_pos h, hw, ← hv idx h hidx]
      exact Function.update_eq_self _ _
    · rw [dif_neg h, hw, add_zero]
      exact Function.update_eq_self _ _

lemma tfidfFold_noop {g : GenState} {v : Vec} :
    ∀ {L : List (String × ℚ)},
    (∀ p ∈ L, tokenWeight g p = 0 ∧
      ∀ m (hm : m < 384), vocabIndex g.vocabulary p.1 = some m →
        v ⟨m, hm⟩ = 0) →
    L.foldl (tfidfStep g) v = v := by
  intro L
  induction L with
  | nil => intro _; rfl
  | cons p rest ih =>
    intro h
    have hp := h p (List.mem_cons_self p rest)
    rw [List.foldl_cons, tfidfStep_noop hp.1 hp.2]
    exact ih fun q hq => h q (List.mem_cons_of_mem p hq)

lemma keywordStep_noop {text : String} {v : Vec} {f : List String × Nat}
    (h : kwCount text f.1 = 0) : keywordStep text v f = v := by
  unfold keywordStep
  rw [dif_neg]
  intro hc
  rw [h] at hc
  exact lt_irrefl 0 hc.1

lemma structureStep_noop {v : Vec} {f : Nat × Nat} (h : f.1 = 0) :
    structureStep v f = v := by
  unfold structureStep
  rw [dif_neg]
  intro hc
  rw [h] at hc
  exact lt_irrefl 0 hc.1

lemma addSemanticFeatures_noop {text : String} {v : Vec}
    (hk : ∀ f ∈ keywordFeatures, kwCount text f.1 = 0)
    (hs : ∀ f ∈ structureCounts text, f.1 = 0) :
    addSemanticFeatures text v = v := by
  unfold addSemanticFeatures
  have h1 : keywordFeatures.foldl (keywordStep text) v = v := by
    have : ∀ (L : List (List String × Nat)),
        (∀ f ∈ L, kwCount text f.1 = 0) →
        L.foldl (keywordStep text) v = v := by
      intro L
      induction L with
      | nil => intro _; rfl
      | cons f rest ih =>
        intro h
        rw [List.foldl_cons, keywordStep_noop (h f (List.mem_cons_self f rest))]
        exact ih fun q hq => h q (List.mem_cons_of_mem f hq)
    exact this keywordFeatures hk
  rw [h1]
  have : ∀ (L : List (Nat × Nat)), (∀ f ∈ L, f.1 = 0) →
      L.foldl structureStep v = v := by
    intro L
    induction L with
    | nil => intro _; rfl
    | cons f rest ih =>
      intro h
      rw [List.foldl_cons, structureStep_noop (h f (List.mem_cons_self f rest))]
      exact ih fun q hq => h q (List.mem_cons_of_mem f hq)
  exact this _ hs

lemma idfFrac_snd_pos {docs vocab : List String} {t : String}
    {a b : Nat} (h : idfFrac docs vocab t = some (a, b)) : 0 < b := by
  simp only [idfFrac] at h
  split_ifs at h with h1 h2
  · obtain ⟨ha, hb⟩ : max docs.length 1 = a ∧ dfCount docs t = b := by
      simpa using h
    rw [← hb]
    exact h2

lemma tokenWeight_zero {g : GenState} {docs vocab : List String}
    (hg : g.idfScores = computeIDFuncOf docs vocab) {p : String × ℚ}
    (h : idfNeutral docs vocab p.1 = true) :
    tokenWeight g p = 0 := by
  unfold tokenWeight
  rw [hg]
  unfold computeIDFuncOf
  unfold idfNeutral at h
  cases hf : idfFrac docs vocab p.1 with
  | none => simp
  | some q =>
    obtain ⟨a, b⟩ := q
    rw [hf] at h
    have hab : a = b := by simpa using h
    have hb : 0 < b := idfFrac_snd_pos hf
    subst hab
    have : ((a : ℝ) / (a : ℝ)) = 1 := by
      rw [div_self]
      exact Nat.cast_ne_zero.mpr hb.ne'
    simp [this, Real.log_one]

lemma tfidfFold_zero_noop {g : GenState} {L : List (String × ℚ)}
    (h : ∀ p ∈ L, tokenWeight g p = 0) :
    L.foldl (tfidfStep g) zeroVec = zeroVec :=
  tfidfFold_noop fun p hp => ⟨h p hp, fun _ _ _ => rfl⟩

lemma tfidfFold_oneHot_noop {g : GenState} {j : Fin 384} {w : ℝ}
    {L : List (String × ℚ)}
    (h : ∀ p ∈ L, tokenWeight g p = 0 ∧
      vocabIndex g.vocabulary p.1 ≠ some j.1) :
    L.foldl (tfidfStep g) (oneHot j w) = oneHot j w := by
  apply tfidfFold_noop
  intro p hp
  refine ⟨(h p hp).1, ?_⟩
  intro m hm hvi
  rw [oneHot_apply, if_neg]
  intro he
  apply (h p hp).2
  rw [hvi]
  have : m = j.1 := congrArg Fin.val he
  rw [this]

lemma tfidfFold_single {g : GenState} {L1 L2 : List (String × ℚ)}
    {p0 : String × ℚ} {idx : Nat}
    (hidx : vocabIndex g.vocabulary p0.1 = some idx) (hlt : idx < 384)
    (h1 : ∀ p ∈ L1, tokenWeight g p = 0)
    (h2 : ∀ p ∈ L2, tokenWeight g p = 0 ∧
      vocabIndex g.vocabulary p.1 ≠ some idx) :
    (L1 ++ p0 :: L2).foldl (tfidfStep g) zeroVec
      = oneHot ⟨idx, hlt⟩ (tokenWeight g p0) := by
  rw [List.foldl_append, tfidfFold_zero_noop h1, List.foldl_cons]
  have hstep : tfidfStep g zeroVec p0
      = oneHot ⟨idx, hlt⟩ (tokenWeight g p0) := by
    unfold tfidfStep
    rw [hidx, Option.elim_some, dif_pos hlt]
    rfl
  rw [hstep]
  exact tfidfFold_oneHot_noop h2

/-- The chunk of the concrete ranking scenario whose canonical text
tokenizes into words plus bigrams over `foo bar`, triggers no semantic
or structure feature, and whose embedding is computed over a
single-document corpus — yielding the all-zero embedding. -/
def exC : CodeChunk :=
  { id := "a", filepath := "f", content := "foo bar", type := "module"
    name := "a", startLine := 0, endLine := 0, language := "l"
    parentId := none
    metadata := { signature := none, docstring := none
                  dependencies := none, complexity := none
                  lastModified := none } }

/-- Companion chunk whose content is the literal token `foo_bar`, which
coincides with the bigram token of `exC` but, carrying the underscore
literally, has document frequency 1. -/
def exD : CodeChunk :=
  { id := "b", filepath := "g", content := "foo_bar", type := "module"
    name := "b", startLine := 0, endLine := 0, language := "l"
    parentId := none
    metadata := { signature := none, docstring := none
                  dependencies := none, complexity := none
                  lastModified := none } }

/-- Store after `addChunks([exC])` on a fresh store. -/
noncomputable def exStore1 : Store := addChunks emptyStore [exC]

/-- Store after `addChunks([exC]); addChunks([exD])`. -/
noncomputable def exStore2 : Store := addChunks exStore1 [exD]

/-- Vocabulary after indexing `exC`. -/
def exVocab1 : List String :=
  updateVocabulary [] (tokenize (createChunkText exC))

/-- Vocabulary after indexing `exC` then `exD`. -/
def exVocab2 : List String :=
  updateVocabulary exVocab1 (tokenize (createChunkText exD))

/-- Generator state after the first batch. -/
noncomputable def exG1 : GenState :=
  { vocabulary := exVocab1
    idfScores := computeIDFuncOf [createChunkText exC] exVocab1
    documents := [createChunkText exC] }

/-- Generator state after the second batch. -/
noncomputable def exG2 : GenState :=
  { vocabulary := exVocab2
    idfScores :=
      computeIDFuncOf [createChunkText exC, createChunkText exD] exVocab2
    documents := [createChunkText exC, createChunkText exD] }

/-- Vocabulary after additionally embedding the query
`createChunkText exC` (no new tokens arise). -/
def exVocabQ : List String :=
  updateVocabulary exVocab2 (tokenize (createChunkText exC))

/-- Generator state while embedding the query. -/
noncomputable def exGQ : GenState :=
  { vocabulary := exVocabQ
    idfScores := computeIDFuncOf
      [createChunkText exC, createChunkText exD, createChunkText exC]
      exVocabQ
    documents :=
      [createChunkText exC, createChunkText exD, createChunkText exC] }

set_option maxRecDepth 100000 in
lemma exGen1_eq : (generateBatch emptyStore.gen
    [createChunkText exC]).2 = exG1 := rfl

set_option maxRecDepth 100000 in
lemma exGen2_eq : (generateBatch exG1 [createChunkText exD]).2 = exG2 := rfl

set_option maxRecDepth 100000 in
lemma exGenQ_eq : (generate exG2 (createChunkText exC)).2 = exGQ := rfl

lemma mem_bump {q : String × Nat} {h : List (String × Nat)} {k : String}
    (hq : q ∈ bump h k) : q.1 = k ∨ q ∈ h := by
  induction h with
  | nil =>
    left
    have : q = (k, 1) := by simpa [bump] using hq
    rw [this]
  | cons p rest ih =>
    obtain ⟨k₀, n⟩ := p
    by_cases hk : k₀ = k
    · subst hk
      rcases (by simpa [bump] using hq : q = (k₀, n + 1) ∨ q ∈ rest) with
        h1 | h1
      · left
        rw [h1]
      · right
        exact List.mem_cons_of_mem _ h1
    · rcases (by simpa [bump, hk] using hq :
          q = (k₀, n) ∨ q ∈ bump rest k) with h1 | h1
      · right
        simp [h1]
      · rcases ih h1 with h2 | h2
        · exact Or.inl h2
        · exact Or.inr (List.mem_cons_of_mem _ h2)

lemma mem_bump_fold {tokens : List String} {q : String × Nat} :
    ∀ {acc : List (String × Nat)},
    q ∈ tokens.foldl bump acc → q ∈ acc ∨ q.1 ∈ tokens := by
  induction tokens with
  | nil =>
    intro acc h
    exact Or.inl h
  | cons t rest ih =>
    intro acc h
    rcases ih (by simpa using h) with h1 | h1
    · rcases mem_bump h1 with h2 | h2
      · right
        simp [h2]
      · exact Or.inl h2
    · right
      exact List.mem_cons_of_mem _ h1

lemma forall_mem_computeTF {tokens : List String} {P : String → Prop}
    (h : ∀ t ∈ tokens, P t) : ∀ p ∈ computeTF tokens, P p.1 := by
  intro p hp
  unfold computeTF at hp
  obtain ⟨q, hq, hpq⟩ := List.mem_map.mp hp
  have h1 : p.1 = q.1 := by rw [← hpq]
  rw [h1]
  rcases mem_bump_fold hq with h2 | h2
  · exact absurd h2 (List.not_mem_nil q)
  · exact h q.1 h2

set_option maxRecDepth 100000 in
lemma exE1 : textToVector exG1 (createChunkText exC) = zeroVec := by
  unfold textToVector rawVector
  have hneu : ∀ t ∈ tokenize (createChunkText exC),
      idfNeutral [createChunkText exC] exVocab1 t = true := by decide
  have hw : ∀ p ∈ computeTF (tokenize (createChunkText exC)),
      tokenWeight exG1 p = 0 :=
    fun p hp => tokenWeight_zero rfl (forall_mem_computeTF hneu p hp)
  rw [tfidfFold_zero_noop hw,
    addSemanticFeatures_noop (by decide) (by decide)]
  exact normalizeVec_zeroVec

/-- Token-count map of `createChunkText exD`, split around the one
token (`foo_bar`) with a nonzero IDF score. -/
def exCntD1 : List (String × Nat) :=
  [("type", 1), ("module", 1), ("name", 1), ("b", 1), ("language", 1),
   ("l", 1), ("file", 1), ("g", 1), ("code", 1)]

/-- Tokens of `createChunkText exD` after `foo_bar` (all bigrams,
absent from the IDF map). -/
def exCntD2 : List (String × Nat) :=
  [("type_module", 1), ("module_name", 1), ("name_b", 1),
   ("b_language", 1), ("language_l", 1), ("l_file", 1), ("file_g", 1),
   ("g_code", 1), ("code_foo_bar", 1)]

/-- Token-count map of `createChunkText exC` before its final token
`foo_bar`. -/
def exCntQ1 : List (String × Nat) :=
  [("type", 1), ("module", 1), ("name", 1), ("a", 1), ("language", 1),
   ("l", 1), ("file", 1), ("f", 1), ("code", 1), ("foo", 1), ("bar", 1),
   ("type_module", 1), ("module_name", 1), ("name_a", 1),
   ("a_language", 1), ("language_l", 1), ("l_file", 1), ("file_f", 1),
   ("f_code", 1), ("code_foo", 1)]

set_option maxRecDepth 100000 in
lemma exE2raw : rawVector exG2 (createChunkText exD)
    = oneHot ⟨20, by norm_num⟩
      (tokenWeight exG2 ("foo_bar", ((1 : Nat) : ℚ) / ((19 : Nat) : ℚ))) := by
  unfold rawVector
  have hcnt : (tokenize (createChunkText exD)).foldl bump []
      = exCntD1 ++ ("foo_bar", 1) :: exCntD2 := by decide
  have hlen : (tokenize (createChunkText exD)).length = 19 := by decide
  unfold computeTF
  rw [hcnt, hlen, List.map_append, List.map_cons]
  have hneu1 : ∀ q ∈ exCntD1,
      idfNeutral [createChunkText exC, createChunkText exD]
        exVocab2 q.1 = true := by decide
  have hneu2 : ∀ q ∈ exCntD2,
      idfNeutral [createChunkText exC, createChunkText exD]
        exVocab2 q.1 = true ∧ vocabIndex exVocab2 q.1 ≠ some 20 := by
    decide
  have h1 : ∀ p ∈ exCntD1.map
      (fun p => (p.1, (p.2 : ℚ) / ((19 : Nat) : ℚ))),
      tokenWeight exG2 p = 0 := by
    intro p hp
    obtain ⟨q, hq, hpq⟩ := List.mem_map.mp hp
    have hp1 : p.1 = q.1 := by rw [← hpq]
    apply tokenWeight_zero rfl
    rw [hp1]
    exact hneu1 q hq
  have h2 : ∀ p ∈ exCntD2.map
      (fun p => (p.1, (p.2 : ℚ) / ((19 : Nat) : ℚ))),
      tokenWeight exG2 p = 0 ∧
      vocabIndex exG2.vocabulary p.1 ≠ some 20 := by
    intro p hp
    obtain ⟨q, hq, hpq⟩ := List.mem_map.mp hp
    have hp1 : p.1 = q.1 := by rw [← hpq]
    constructor
    · apply tokenWeight_zero rfl
      rw [hp1]
      exact (hneu2 q hq).1
    · rw [hp1]
      exact (hneu2 q hq).2
  have hidx : vocabIndex exG2.vocabulary "foo_bar" = some 20 := by decide
  rw [tfidfFold_single hidx (by norm_num) h1 h2,
    addSemanticFeatures_noop (by decide) (by decide)]

set_option maxRecDepth 100000 in
lemma exW2_pos :
    0 < tokenWeight exG2 ("foo_bar", ((1 : Nat) : ℚ) / ((19 : Nat) : ℚ)) := by
  unfold tokenWeight
  have hidf : exG2.idfScores "foo_bar"
      = some (Real.log (((2 : Nat) : ℝ) / ((1 : Nat) : ℝ))) := by
    have hg : exG2.idfScores = computeIDFuncOf
        [createChunkText exC, createChunkText exD] exVocab2 := rfl
    rw [hg]
    unfold computeIDFuncOf
    rw [(by decide : idfFrac [createChunkText exC, createChunkText exD]
      exVocab2 "foo_bar" = some (2, 1))]
    rfl
  rw [hidf, Option.getD_some]
  apply mul_pos
  · push_cast
    norm_num
  · apply Real.log_pos
    push_cast
    norm_num

set_option maxRecDepth 100000 in
lemma exE2 : textToVector exG2 (createChunkText exD)
    = oneHot ⟨20, by norm_num⟩ 1 := by
  unfold textToVector
  rw [exE2raw]
  exact normalizeVec_oneHot _ exW2_pos

set_option maxRecDepth 100000 in
lemma exEQraw : rawVector exGQ (createChunkText exC)
    = oneHot ⟨20, by norm_num⟩
      (tokenWeight exGQ ("foo_bar", ((1 : Nat) : ℚ) / ((21 : Nat) : ℚ))) := by
  unfold rawVector
  have hcnt : (tokenize (createChunkText exC)).foldl bump []
      = exCntQ1 ++ ("foo_bar", 1) :: [] := by decide
  have hlen : (tokenize (createChunkText exC)).length = 21 := by decide
  unfold computeTF
  rw [hcnt, hlen, List.map_append, List.map_cons]
  have hneu : ∀ q ∈ exCntQ1,
      idfNeutral
        [createChunkText exC, createChunkText exD, createChunkText exC]
        exVocabQ q.1 = true := by decide
  have h1 : ∀ p ∈ exCntQ1.map
      (fun p => (p.1, (p.2 : ℚ) / ((21 : Nat) : ℚ))),
      tokenWeight exGQ p = 0 := by
    intro p hp
    obtain ⟨q, hq, hpq⟩ := List.mem_map.mp hp
    have hp1 : p.1 = q.1 := by rw [← hpq]
    apply tokenWeight_zero rfl
    rw [hp1]
    exact hneu q hq
  have h2 : ∀ p ∈ (([] : List (String × Nat)).map
      (fun p => (p.1, (p.2 : ℚ) / ((21 : Nat) : ℚ)))),
      tokenWeight exGQ p = 0 ∧
      vocabIndex exGQ.vocabulary p.1 ≠ some 20 := by
    simp
  have hidx : vocabIndex exGQ.vocabulary "foo_bar" = some 20 := by decide
  rw [tfidfFold_single hidx (by norm_num) h1 h2,
    addSemanticFeatures_noop (by decide) (by decide)]

set_option maxRecDepth 100000 in
lemma exWQ_pos :
    0 < tokenWeight exGQ ("foo_bar", ((1 : Nat) : ℚ) / ((21 : Nat) : ℚ)) := by
  unfold tokenWeight
  have hidf : exGQ.idfScores "foo_bar"
      = some (Real.log (((3 : Nat) : ℝ) / ((1 : Nat) : ℝ))) := by
    have hg : exGQ.idfScores = computeIDFuncOf
        [createChunkText exC, createChunkText exD, createChunkText exC]
        exVocabQ := rfl
    rw [hg]
    unfold computeIDFuncOf
    rw [(by decide : idfFrac
      [createChunkText exC, createChunkText exD, createChunkText exC]
      exVocabQ "foo_bar" = some (3, 1))]
    rfl
  rw [hidf, Option.getD_some]
  apply mul_pos
  · push_cast
    norm_num
  · apply Real.log_pos
    push_cast
    norm_num

set_option maxRecDepth 100000 in
lemma exEQ : textToVector exGQ (createChunkText exC)
    = oneHot ⟨20, by norm_num⟩ 1 := by
  unfold textToVector
  rw [exEQraw]
  exact normalizeVec_oneHot _ exWQ_pos

set_option maxRecDepth 100000 in
lemma exStore1_chunks :
    exStore1.chunks = [("a", StoredChunk.mk exC zeroVec)] := by
  have h : exStore1.chunks
      = [("a", StoredChunk.mk exC
          (textToVector exG1 (createChunkText exC)))] := rfl
  rw [h, exE1]

set_option maxRecDepth 100000 in
lemma exStore2_chunks :
    exStore2.chunks = [("a", StoredChunk.mk exC zeroVec),
      ("b", StoredChunk.mk exD (oneHot ⟨20, by norm_num⟩ 1))] := by
  have h : exStore2.chunks
      = mapSet exStore1.chunks "b" (StoredChunk.mk exD
          (textToVector exG2 (createChunkText exD))) := rfl
  rw [h, exStore1_chunks, exE2]
  show (if "a" = "b" then _ else _) = _
  rw [if_neg (by decide)]
  rfl

set_option maxRecDepth 100000 in
lemma exQueryEmbedding :
    (generate exStore2.gen (createChunkText exC)).1
      = oneHot ⟨20, by norm_num⟩ 1 := by
  have h : (generate exStore2.gen (createChunkText exC)).1
      = textToVector exGQ (createChunkText exC) := rfl
  rw [h, exEQ]

set_option maxRecDepth 100000 in
open Classical in
lemma exSearchEval :
    searchResults exStore2 (createChunkText exC) 2
      = [⟨exD, 0⟩, ⟨exC, 1⟩] := by
  have h20 : (20 : ℕ) < 384 := by norm_num
  have h : searchResults exStore2 (createChunkText exC) 2
      = (List.insertionSort scoreLe (exStore2.chunks.map
          (fun p : String × StoredChunk =>
            (⟨p.2.chunk, 1 - cosineSimilarity
              ((generate exStore2.gen (createChunkText exC)).1)
              p.2.embedding⟩ : VectorSearchResult)))).take 2 := rfl
  rw [h, exQueryEmbedding, exStore2_chunks]
  have hs : ([("a", StoredChunk.mk exC zeroVec),
      ("b", StoredChunk.mk exD (oneHot ⟨20, h20⟩ 1))].map
      (fun p : String × StoredChunk =>
        (⟨p.2.chunk, 1 - cosineSimilarity (oneHot ⟨20, h20⟩ 1)
          p.2.embedding⟩ : VectorSearchResult)))
      = [⟨exC, 1 - cosineSimilarity (oneHot ⟨20, h20⟩ 1) zeroVec⟩,
         ⟨exD, 1 - cosineSimilarity (oneHot ⟨20, h20⟩ 1)
            (oneHot ⟨20, h20⟩ 1)⟩] := rfl
  rw [hs, cosineSimilarity_zero_right, cosineSimilarity_oneHot_self]
  norm_num
  rw [if_neg (show ¬ scoreLe ⟨exC, 1⟩ ⟨exD, 0⟩ by
    unfold scoreLe
    norm_num)]
  rfl

open Classical in
lemma searchResults_of_chunks_nil {s : Store} (h : s.chunks = [])
    (q : String) (k : Nat) : searchResults s q k = [] := by
  have h1 : searchResults s q k
      = (List.insertionSort scoreLe (s.chunks.map
          (fun p : String × StoredChunk =>
            (⟨p.2.chunk, 1 - cosineSimilarity
              ((generate s.gen q).1) p.2.embedding⟩ :
              VectorSearchResult)))).take k := rfl
  rw [h1, h]
  simp

lemma getRelated_fst {s : Store} {cid : String} {k : Nat} {c : CodeChunk}
    (h : getChunkById s cid = some c) :
    (getRelatedChunks s cid k).1
      = ((searchRun s (createChunkText c) (k + 1)).1.filter
          (fun x => x.chunk.id ≠ cid)).take k := by
  unfold getRelatedChunks
  rw [h]

lemma getRelated_none {s : Store} {cid : String} {k : Nat}
    (h : getChunkById s cid = none) :
    (getRelatedChunks s cid k).1 = [] := by
  unfold getRelatedChunks
  rw [h]

lemma bump_fold_sum {β : Type} (l : List β) (f : β → String) :
    ∀ acc : List (String × Nat),
    ((l.foldl (fun h x => bump h (f x)) acc).map Prod.snd).sum
      = (acc.map Prod.snd).sum + l.length := by
  induction l with
  | nil => intro acc; simp
  | cons x rest ih =>
    intro acc
    have h1 : ((x :: rest).foldl (fun h y => bump h (f y)) acc)
        = rest.foldl (fun h y => bump h (f y)) (bump acc (f x)) := rfl
    rw [h1, ih, bump_sum]
    simp
    ring

/-- Invariant of claim C6 over the whole store: every stored embedding
is L2-normalized or all-zero. -/
def StoreInv (s : Store) : Prop :=
  ∀ p ∈ s.chunks, isUnitOrZero p.2.embedding

lemma mem_foldl_mapSet_stored {P : Vec → Prop} :
    ∀ (pairs : List (CodeChunk × Vec))
      (m : List (String × StoredChunk)),
    (∀ p ∈ m, P p.2.embedding) → (∀ q ∈ pairs, P q.2) →
    ∀ p ∈ pairs.foldl
      (fun acc q => mapSet acc q.1.id (StoredChunk.mk q.1 q.2)) m,
      P p.2.embedding := by
  intro pairs
  induction pairs with
  | nil => intro m hm _ p hp; exact hm p hp
  | cons q rest ih =>
    intro m hm hq p hp
    have h1 : (q :: rest).foldl
        (fun acc q => mapSet acc q.1.id (StoredChunk.mk q.1 q.2)) m
        = rest.foldl
          (fun acc q => mapSet acc q.1.id (StoredChunk.mk q.1 q.2))
          (mapSet m q.1.id (StoredChunk.mk q.1 q.2)) := rfl
    rw [h1] at hp
    refine ih _ ?_ (fun r hr => hq r (List.mem_cons_of_mem _ hr)) p hp
    intro r hr
    rcases mem_mapSet hr with h2 | h2
    · rw [h2]
      exact hq q (List.mem_cons_self q rest)
    · exact hm r h2

lemma mem_foldl_mapDelete {p : String × StoredChunk} :
    ∀ (ids : List String) (m : List (String × StoredChunk)),
    p ∈ ids.foldl mapDelete m → p ∈ m := by
  intro ids
  induction ids with
  | nil => intro m h; exact h
  | cons i rest ih =>
    intro m h
    have h1 := ih (mapDelete m i) (by simpa using h)
    exact List.mem_of_mem_filter h1

/-- Entry created by `recordMemoryEntry` from one call's fresh id,
clock value, query and response. -/
def entryOf (c : String × ℤ × String × String) : MemoryEntry :=
  { id := c.1, timestamp := c.2.1, query := c.2.2.1
    response := c.2.2.2, relevantChunks := [], feedback := none }

lemma recordSeq_foldl (calls : List (String × ℤ × String × String)) :
    ∀ m : List (String × MemoryEntry),
    (recordSeq ⟨m⟩ calls).memoryEntries
      = (calls.map (fun c => (c.1, entryOf c))).foldl
          (fun acc p => mapSet acc p.1 p.2) m := by
  induction calls with
  | nil => intro m; rfl
  | cons c rest ih =>
    intro m
    have h1 : recordSeq ⟨m⟩ (c :: rest)
        = recordSeq ⟨mapSet m c.1 (entryOf c)⟩ rest := rfl
    rw [h1, ih]
    rfl

lemma recordSeq_entries {calls : List (String × ℤ × String × String)}
    (h : (calls.map (fun c => c.1)).Nodup) :
    (recordSeq ⟨[]⟩ calls).memoryEntries
      = calls.map (fun c => (c.1, entryOf c)) := by
  rw [recordSeq_foldl]
  have hkeys : mapKeys (calls.map (fun c => (c.1, entryOf c)))
      = calls.map (fun c => c.1) := by
    unfold mapKeys
    rw [List.map_map]
    rfl
  have h2 := load_replay (calls.map (fun c => (c.1, entryOf c))) []
    (by rw [hkeys]; exact h) (by simp [mapKeys])
  simpa using h2

lemma typeWeight_lb (t : String) : (3 : ℚ)/10 ≤ typeWeight t := by
  unfold typeWeight
  split_ifs <;> norm_num

/-- Hand-built one-entry store used to instantiate universally
quantified store theorems at a concrete state. -/
noncomputable def exWitStore : Store :=
  { chunks := [("a", StoredChunk.mk exC zeroVec)], gen := initGen }

/-- C7: `getRelatedChunks(id, k)` returns the empty list when `id` is
unknown, never returns more than `k` results, and never returns a
result whose chunk id equals `id` (the chunk itself is filtered out
after searching with `k + 1`). -/
theorem spec_C7_selfExclusion (s : Store) (cid : String) (k : Nat) :
    (getChunkById s cid = none → (getRelatedChunks s cid k).1 = []) ∧
    (getRelatedChunks s cid k).1.length ≤ k ∧
    ∀ r ∈ (getRelatedChunks s cid k).1, r.chunk.id ≠ cid := by
  refine ⟨fun h => getRelated_none h, ?_, ?_⟩
  · cases h : getChunkById s cid with
    | none =>
      rw [getRelated_none h]
      simp
    | some c =>
      rw [getRelated_fst h, List.length_take]
      exact min_le_left _ _
  · intro r hr
    cases h : getChunkById s cid with
    | none =>
      rw [getRelated_none h] at hr
      exact absurd hr (List.not_mem_nil r)
    | some c =>
      rw [getRelated_fst h] at hr
      have h1 := List.mem_of_mem_take hr
      have h2 := List.mem_filter.mp h1
      simpa using h2.2

/-- Witness for C7 at the empty store and id `"a"`. -/
theorem spec_C7_witness :
    getChunkById emptyStore "a" = none ∧
    (getRelatedChunks emptyStore "a" 5).1 = [] ∧
    ∀ r ∈ (getRelatedChunks emptyStore "a" 5).1, r.chunk.id ≠ "a" :=
  ⟨rfl, (spec_C7_selfExclusion emptyStore "a" 5).1 rfl,
    (spec_C7_selfExclusion emptyStore "a" 5).2.2⟩

/-- C8: `search` on a store containing no chunks returns the empty
list (the operation is total in the model — no error is raised). -/
theorem spec_C8_emptySearch (s : Store) (q : String) (k : Nat)
    (h : s.chunks = []) : searchResults s q k = [] :=
  searchResults_of_chunks_nil h q k

/-- Witness for C8: the concrete scenario `search("anything", 5)` on a
fresh store. -/
theorem spec_C8_witness :
    emptyStore.chunks = [] ∧
    searchResults emptyStore "anything" 5 = [] :=
  ⟨rfl, spec_C8_emptySearch emptyStore "anything" 5 rfl⟩

/-- C9: the computed importance equals the specification formula
(per-type weight, +0.1 for a docstring, +0.1 for more than 50 lines and
another +0.1 for more than 100, capped at 1.0) and always lies in
`[0, 1]`. -/
theorem spec_C9_importance (c : CodeChunk) :
    calculateChunkImportance c = specImportance c ∧
    0 ≤ calculateChunkImportance c ∧ calculateChunkImportance c ≤ 1 := by
  refine ⟨?_, ?_, ?_⟩
  · simp only [calculateChunkImportance, specImportance, typeWeight]
    split_ifs <;> first
    | rfl
    | simp_all
  · unfold calculateChunkImportance
    apply le_min _ (by norm_num)
    have h1 := typeWeight_lb c.type
    have h2 : (0 : ℚ) ≤
        (if c.metadata.docstring.isSome then (1 : ℚ)/10 else 0) := by
      split_ifs <;> norm_num
    have h3 : (0 : ℚ) ≤
        (if 50 < c.endLine - c.startLine + 1 then (1 : ℚ)/10 else 0) := by
      split_ifs <;> norm_num
    have h4 : (0 : ℚ) ≤
        (if 100 < c.endLine - c.startLine + 1 then (1 : ℚ)/10 else 0) := by
      split_ifs <;> norm_num
    linarith
  · unfold calculateChunkImportance
    exact min_le_right _ _

/-- C10: `getStats` reports a total equal to the number of stored
entries, and both histograms sum to that total. -/
theorem spec_C10_stats (s : Store) :
    (getStats s).totalChunks = s.chunks.length ∧
    (((getStats s).chunksByType.map Prod.snd).sum
      = (getStats s).totalChunks) ∧
    (((getStats s).chunksByLanguage.map Prod.snd).sum
      = (getStats s).totalChunks) := by
  refine ⟨rfl, ?_, ?_⟩
  · have h := bump_fold_sum s.chunks (fun p => p.2.chunk.type) []
    simpa [getStats] using h
  · have h := bump_fold_sum s.chunks (fun p => p.2.chunk.language) []
    simpa [getStats] using h

/-- Chunk whose metadata carries a `Date`-valued `lastModified`, as
every chunk produced by the indexer does (`lastModified: new Date()`). -/
def exC5 : CodeChunk :=
  { id := "a", filepath := "f", content := "foo bar", type := "module"
    name := "a", startLine := 0, endLine := 0, language := "l"
    parentId := none
    metadata := { signature := none, docstring := none
                  dependencies := none, complexity := none
                  lastModified := some (JsTime.date 0) } }

/-- One-entry store holding `exC5`. -/
noncomputable def exStore5 : Store :=
  { chunks := [("a", StoredChunk.mk exC5 zeroVec)], gen := initGen }

lemma jsonChunk_eq_self {c : CodeChunk}
    (h : ∀ ms : ℤ, c.metadata.lastModified ≠ some (JsTime.date ms)) :
    jsonChunk c = c := by
  have hlm : c.metadata.lastModified.map jsonTime
      = c.metadata.lastModified := by
    cases hc : c.metadata.lastModified with
    | none => rfl
    | some t =>
      cases t with
      | date ms => exact absurd hc (h ms)
      | str s => rfl
  unfold jsonChunk
  obtain ⟨i, fp, ct, ty, nm, sl, el, lg, pid, md⟩ := c
  obtain ⟨sig, doc, dep, comp, lm⟩ := md
  simp only [CodeChunk.mk.injEq, ChunkMetadata.mk.injEq, true_and,
    and_true]
  simpa using hlm

/-- C5 is refuted: the indexer stamps every chunk's
`metadata.lastModified` with `new Date()`, and the snapshot's
`JSON.stringify`/`JSON.parse` round trip turns that `Date` into its ISO
string, so reloading does not reproduce "the same chunk field values
for every chunk (including every metadata field)". Concretely, a store
holding a chunk with `lastModified = Date(0)` reloads to a different
chunk map. -/
theorem spec_C5_counterexample :
    loadFromDisk (saveToDisk exStore5) ≠ exStore5.chunks := by
  have h1 : loadFromDisk (saveToDisk exStore5)
      = [("a", StoredChunk.mk (jsonChunk exC5) zeroVec)] := rfl
  have h2 : exStore5.chunks = [("a", StoredChunk.mk exC5 zeroVec)] := rfl
  rw [h1, h2]
  intro h
  have h3 : jsonChunk exC5 = exC5 := by
    have h4 := (List.cons.injEq _ _ _ _).mp h
    have h5 := (Prod.mk.injEq _ _ _ _).mp h4.1
    exact ((StoredChunk.mk.injEq _ _ _ _).mp h5.2).1
  have h6 := congrArg (fun c => c.metadata.lastModified) h3
  simp [jsonChunk, jsonTime, exC5] at h6

/-- C5 amended: serialize-then-reload reproduces the same ids in the
same order, bit-identical embeddings, and identical chunk field values
with the single exception of `metadata.lastModified`, where a `Date` is
replaced by its ISO string by the JSON round trip; in particular the
mapping is reproduced exactly whenever no stored chunk holds a
`Date`-valued `lastModified`. (JSON round-tripping of ids, strings,
numbers and the finite doubles of the embedding arrays is exact.) The
unique-keys hypothesis holds for every store built by the store
operations, whose `Map` keys are unique. -/
theorem spec_C5_roundTrip (s : Store) (h : (mapKeys s.chunks).Nodup) :
    loadFromDisk (saveToDisk s)
      = s.chunks.map (fun p =>
          (p.1, StoredChunk.mk (jsonChunk p.2.chunk) p.2.embedding)) ∧
    (∀ c : CodeChunk,
      (jsonChunk c).id = c.id ∧ (jsonChunk c).filepath = c.filepath ∧
      (jsonChunk c).content = c.content ∧ (jsonChunk c).type = c.type ∧
      (jsonChunk c).name = c.name ∧
      (jsonChunk c).startLine = c.startLine ∧
      (jsonChunk c).endLine = c.endLine ∧
      (jsonChunk c).language = c.language ∧
      (jsonChunk c).parentId = c.parentId ∧
      (jsonChunk c).metadata.signature = c.metadata.signature ∧
      (jsonChunk c).metadata.docstring = c.metadata.docstring ∧
      (jsonChunk c).metadata.dependencies = c.metadata.dependencies ∧
      (jsonChunk c).metadata.complexity = c.metadata.complexity ∧
      (jsonChunk c).metadata.lastModified
        = c.metadata.lastModified.map jsonTime) ∧
    ((∀ p ∈ s.chunks, ∀ ms : ℤ,
        p.2.chunk.metadata.lastModified ≠ some (JsTime.date ms)) →
      loadFromDisk (saveToDisk s) = s.chunks) := by
  have hload : loadFromDisk (saveToDisk s)
      = s.chunks.map (fun p =>
          (p.1, StoredChunk.mk (jsonChunk p.2.chunk) p.2.embedding)) := by
    unfold loadFromDisk saveToDisk
    have hkeys : mapKeys (s.chunks.map (fun p =>
        (p.1, StoredChunk.mk (jsonChunk p.2.chunk) p.2.embedding)))
        = mapKeys s.chunks := by
      unfold mapKeys
      rw [List.map_map]
      rfl
    have h2 := load_replay (s.chunks.map (fun p =>
        (p.1, StoredChunk.mk (jsonChunk p.2.chunk) p.2.embedding))) []
      (by rw [hkeys]; exact h) (by simp [mapKeys])
    simpa using h2
  refine ⟨hload, ?_, ?_⟩
  · intro c
    exact ⟨rfl, rfl, rfl, rfl, rfl, rfl, rfl, rfl, rfl, rfl, rfl, rfl,
      rfl, rfl⟩
  · intro hnd
    rw [hload]
    have hself : ∀ p ∈ s.chunks,
        (fun p : String × StoredChunk =>
          (p.1, StoredChunk.mk (jsonChunk p.2.chunk) p.2.embedding)) p
          = p := by
      intro p hp
      obtain ⟨k, sc⟩ := p
      obtain ⟨c, e⟩ := sc
      have h1 : jsonChunk c = c := jsonChunk_eq_self (hnd (k, ⟨c, e⟩) hp)
      simp [h1]
    calc s.chunks.map (fun p =>
          (p.1, StoredChunk.mk (jsonChunk p.2.chunk) p.2.embedding))
        = s.chunks.map id := List.map_congr_left hself
      _ = s.chunks := List.map_id s.chunks

/-- Witness for the amended C5 at a one-entry store whose chunk holds
no `Date`-valued `lastModified`. -/
theorem spec_C5_witness :
    ((mapKeys exWitStore.chunks).Nodup ∧
     (∀ p ∈ exWitStore.chunks, ∀ ms : ℤ,
        p.2.chunk.metadata.lastModified ≠ some (JsTime.date ms))) ∧
    loadFromDisk (saveToDisk exWitStore) = exWitStore.chunks :=
  ⟨⟨by simp [exWitStore, mapKeys],
    by
      intro p hp ms
      have h1 : p = ("a", StoredChunk.mk exC zeroVec) := by
        simpa [exWitStore] using hp
      rw [h1]
      simp [exC]⟩,
   (spec_C5_roundTrip exWitStore (by simp [exWitStore, mapKeys])).2.2
     (by
      intro p hp ms
      have h1 : p = ("a", StoredChunk.mk exC zeroVec) := by
        simpa [exWitStore] using hp
      rw [h1]
      simp [exC])⟩

/-- C6: every embedding produced by `generate` or `generateBatch` is a
384-entry vector (the dimension is fixed by the type `Vec`) that is
L2-normalized or all-zero, and each mutating store operation preserves
the corresponding invariant on all stored embeddings. -/
theorem spec_C6_normalized :
    (∀ (g : GenState) (text : String),
      isUnitOrZero (generate g text).1) ∧
    (∀ (g : GenState) (texts : List String),
      ∀ v ∈ (generateBatch g texts).1, isUnitOrZero v) ∧
    (∀ (s : Store) (cs : List CodeChunk),
      StoreInv s → StoreInv (addChunks s cs)) ∧
    (∀ (s : Store) (c : CodeChunk),
      StoreInv s → StoreInv (updateChunk s c)) ∧
    (∀ (s : Store) (ids : List String),
      StoreInv s → StoreInv (deleteChunks s ids)) := by
  have hgen : ∀ (g : GenState) (text : String),
      isUnitOrZero (generate g text).1 := by
    intro g text
    exact normalizeVec_unitOrZero _
  have hbatch : ∀ (g : GenState) (texts : List String),
      ∀ v ∈ (generateBatch g texts).1, isUnitOrZero v := by
    intro g texts v hv
    obtain ⟨t, _, hvt⟩ := List.mem_map.mp hv
    rw [← hvt]
    exact normalizeVec_unitOrZero _
  refine ⟨hgen, hbatch, ?_, ?_, ?_⟩
  · intro s cs hs p hp
    have h1 : (addChunks s cs).chunks
        = (cs.zip (generateBatch s.gen (cs.map createChunkText)).1).foldl
            (fun acc q => mapSet acc q.1.id (StoredChunk.mk q.1 q.2))
            s.chunks := rfl
    rw [h1] at hp
    refine mem_foldl_mapSet_stored _ _ hs ?_ p hp
    intro q hq
    exact hbatch s.gen (cs.map createChunkText) q.2
      (List.of_mem_zip hq).2
  · intro s c hs p hp
    have h1 : (updateChunk s c).chunks
        = mapSet s.chunks c.id
            (StoredChunk.mk c (generate s.gen (createChunkText c)).1) :=
      rfl
    rw [h1] at hp
    rcases mem_mapSet hp with h2 | h2
    · rw [h2]
      exact hgen s.gen (createChunkText c)
    · exact hs p h2
  · intro s ids hs p hp
    exact hs p (mem_foldl_mapDelete ids s.chunks hp)

/-- Witness for C6: the invariant holds on the empty store and is
carried through a concrete `addChunks` call. -/
theorem spec_C6_witness :
    StoreInv emptyStore ∧ StoreInv (addChunks emptyStore [exC]) :=
  ⟨fun p hp => absurd hp (List.not_mem_nil p),
   spec_C6_normalized.2.2.1 emptyStore [exC]
     (fun p hp => absurd hp (List.not_mem_nil p))⟩

/-- C1 is refuted: `updateChunk` embeds the chunk text through
`generate`, which appends the text to the accumulated document list
(and recomputes IDF over the whole corpus). Concretely, after indexing
`exC` and then calling `updateChunk(exC)`, the document list has grown
from one document to two — it does not "contain after the call exactly
what it contained before". -/
theorem spec_C1_counterexample :
    (updateChunk exStore1 exC).gen.documents ≠ exStore1.gen.documents := by
  have h1 : (updateChunk exStore1 exC).gen.documents
      = [createChunkText exC, createChunkText exC] := rfl
  have h2 : exStore1.gen.documents = [createChunkText exC] := rfl
  rw [h1, h2]
  intro h
  have := congrArg List.length h
  simp at this

lemma updateChunk_gen (s : Store) (c : CodeChunk) :
    (updateChunk s c).gen = (generate s.gen (createChunkText c)).2 := rfl

lemma updateChunk_chunks (s : Store) (c : CodeChunk) :
    (updateChunk s c).chunks
      = mapSet s.chunks c.id
          (StoredChunk.mk c (generate s.gen (createChunkText c)).1) := rfl

lemma generate_snd (g : GenState) (text : String) :
    (generate g text).2
      = { vocabulary := updateVocabulary g.vocabulary (tokenize text)
          idfScores := computeIDFuncOf (g.documents ++ [text])
            (updateVocabulary g.vocabulary (tokenize text))
          documents := g.documents ++ [text] } := rfl

/-- C1 amended: `updateChunk(chunk)` overwrites only that chunk's
store entry (all other entries are untouched and the new entry holds
the freshly generated embedding), but the generator's corpus state does
change: the chunk text is appended to the document list, its tokens
extend the vocabulary, and the IDF table is recomputed corpus-wide over
the grown document list. -/
theorem spec_C1_amended (s : Store) (c : CodeChunk) :
    (∀ id, id ≠ c.id →
      mapGet (updateChunk s c).chunks id = mapGet s.chunks id) ∧
    mapGet (updateChunk s c).chunks c.id
      = some (StoredChunk.mk c (generate s.gen (createChunkText c)).1) ∧
    (updateChunk s c).gen.documents
      = s.gen.documents ++ [createChunkText c] ∧
    (updateChunk s c).gen.vocabulary
      = updateVocabulary s.gen.vocabulary
          (tokenize (createChunkText c)) ∧
    (updateChunk s c).gen.idfScores
      = computeIDFuncOf (s.gen.documents ++ [createChunkText c])
          (updateVocabulary s.gen.vocabulary
            (tokenize (createChunkText c))) := by
  refine ⟨?_, ?_, ?_, ?_, ?_⟩
  · intro id hid
    rw [updateChunk_chunks]
    exact mapGet_mapSet_ne s.chunks _ hid
  · rw [updateChunk_chunks]
    exact mapGet_mapSet_self s.chunks c.id _
  · rw [updateChunk_gen, generate_snd]
  · rw [updateChunk_gen, generate_snd]
  · rw [updateChunk_gen, generate_snd]

/-- Witness for the amended C1 at the empty store, chunk `exC` and the
unrelated id `"z"`. -/
theorem spec_C1_witness :
    ("z" ≠ exC.id) ∧
    mapGet (updateChunk emptyStore exC).chunks "z"
      = mapGet emptyStore.chunks "z" :=
  ⟨by decide, (spec_C1_amended emptyStore exC).1 "z" (by decide)⟩

/-- C2 is refuted for the store implementation the extension actually
uses: `MemoryVectorStore.initialize` only initializes the embedded
generator (a no-op log) and no operation checks any initialization
flag, so a `search` on a store on which `initialize` was never called
completes and returns a result (the empty list here) instead of failing
with `NotInitialized`. -/
theorem spec_C2_counterexample :
    memInitialize emptyStore "proj" = emptyStore ∧
    searchResults emptyStore "anything" 5 = [] :=
  ⟨rfl, searchResults_of_chunks_nil rfl "anything" 5⟩

/-- C2 amended: the chromadb-backed `VectorStore` class does reject
every operation (addChunks, search, searchByCode, getRelatedChunks,
getChunkById, updateChunk, deleteChunks, getStats) with its
`NotInitialized` error while `collection` is still `null`; the
`MemoryVectorStore` actually wired into the extension imposes no such
requirement — its `initialize` leaves the state unchanged and its
operations complete normally on a never-initialized store. -/
theorem spec_C2_amended :
    (∀ (s : ChromaStore), s.collection = none →
      ∀ (cs : List CodeChunk) (q cid : String) (k : Nat) (c : CodeChunk)
        (ids : List String)
        (add : ChromaCollection → List CodeChunk → Unit)
        (run : ChromaCollection → String → Nat → List VectorSearchResult)
        (get1 : ChromaCollection → String → Option CodeChunk)
        (upd : ChromaCollection → CodeChunk → Unit)
        (del : ChromaCollection → List String → Unit)
        (gst : ChromaCollection → StoreStats),
        chromaAddChunks s cs add = Except.error VSError.notInitialized ∧
        chromaSearch s q k run = Except.error VSError.notInitialized ∧
        chromaSearchByCode s q k run
          = Except.error VSError.notInitialized ∧
        chromaGetRelatedChunks s cid k run
          = Except.error VSError.notInitialized ∧
        chromaGetChunkById s cid get1
          = Except.error VSError.notInitialized ∧
        chromaUpdateChunk s c upd = Except.error VSError.notInitialized ∧
        chromaDeleteChunks s ids del
          = Except.error VSError.notInitialized ∧
        chromaGetStats s gst = Except.error VSError.notInitialized) ∧
    (∀ (s : Store) (n : String), memInitialize s n = s) ∧
    (∀ (s : Store) (q : String) (k : Nat), s.chunks = [] →
      searchResults s q k = []) := by
  refine ⟨?_, fun _ _ => rfl, fun s q k h =>
    searchResults_of_chunks_nil h q k⟩
  intro s h cs q cid k c ids add run get1 upd del gst
  obtain ⟨col⟩ := s
  cases h
  exact ⟨rfl, rfl, rfl, rfl, rfl, rfl, rfl, rfl⟩

/-- Witness for the amended C2 at an uninitialized chromadb store and
a fresh memory store. -/
theorem spec_C2_witness :
    ((ChromaStore.mk none).collection = none ∧
      chromaSearch (ChromaStore.mk none) "q" 5 (fun _ _ _ => [])
        = Except.error VSError.notInitialized) ∧
    (emptyStore.chunks = [] ∧
      searchResults emptyStore "nothing" 3 = []) :=
  ⟨⟨rfl,
    (spec_C2_amended.1 (ChromaStore.mk none) rfl [] "q" "x" 5 exC []
      (fun _ _ => ()) (fun _ _ _ => []) (fun _ _ => none)
      (fun _ _ => ()) (fun _ _ => ())
      (fun _ => StoreStats.mk 0 [] [])).2.1⟩,
   ⟨rfl, spec_C2_amended.2.2 emptyStore "nothing" 3 rfl⟩⟩

lemma persistedLedger_sorted (cm : LedgerState) :
    List.Sorted newerLe (persistedLedger cm) := by
  unfold persistedLedger
  exact List.Pairwise.sublist (List.take_sublist _ _)
    (List.sorted_insertionSort newerLe _)

lemma oldest_not_mem_persisted {e0 : MemoryEntry}
    {rest : List MemoryEntry} (hlen : rest.length = 1000)
    (hts : ∀ e ∈ rest, e0.timestamp < e.timestamp) :
    e0 ∉ (List.insertionSort newerLe (e0 :: rest)).take 1000 := by
  have hperm : (List.insertionSort newerLe (e0 :: rest)).Perm
      (e0 :: rest) := List.perm_insertionSort _ _
  have hslen : (List.insertionSort newerLe (e0 :: rest)).length = 1001 := by
    rw [hperm.length_eq]
    simp [hlen]
  have hne : List.insertionSort newerLe (e0 :: rest) ≠ [] := by
    intro h
    rw [h] at hslen
    simp at hslen
  have htake : (List.insertionSort newerLe (e0 :: rest)).take 1000
      = (List.insertionSort newerLe (e0 :: rest)).dropLast := by
    rw [List.dropLast_eq_take, hslen]
  intro hmem
  rw [htake] at hmem
  have hlast_mem : (List.insertionSort newerLe (e0 :: rest)).getLast hne
      ∈ List.insertionSort newerLe (e0 :: rest) := List.getLast_mem hne
  have hlast_mem' : (List.insertionSort newerLe (e0 :: rest)).getLast hne
      ∈ e0 :: rest := hperm.mem_iff.mp hlast_mem
  have hsorted : List.Pairwise newerLe
      (List.insertionSort newerLe (e0 :: rest)) :=
    List.sorted_insertionSort newerLe _
  have hsplit : (List.insertionSort newerLe (e0 :: rest)).dropLast
      ++ [(List.insertionSort newerLe (e0 :: rest)).getLast hne]
      = List.insertionSort newerLe (e0 :: rest) :=
    List.dropLast_append_getLast hne
  rcases List.mem_cons.mp hlast_mem' with hcase | hcase
  · have hcount : List.count e0 (e0 :: rest) = 1 := by
      rw [List.count_cons_self]
      have h0 : List.count e0 rest = 0 := by
        rw [List.count_eq_zero]
        intro hmem0
        exact lt_irrefl _ (hts e0 hmem0)
      rw [h0]
    have hcount2 : List.count e0
        (List.insertionSort newerLe (e0 :: rest)) = 1 := by
      rw [hperm.count_eq]
      exact hcount
    have h2 : 2 ≤ List.count e0
        (List.insertionSort newerLe (e0 :: rest)) := by
      rw [← hsplit, List.count_append]
      have c1 : 0 < List.count e0
          ((List.insertionSort newerLe (e0 :: rest)).dropLast) :=
        List.count_pos_iff.mpr hmem
      have c2 : List.count e0
          [(List.insertionSort newerLe (e0 :: rest)).getLast hne] = 1 := by
        rw [hcase]
        simp
      omega
    omega
  · have hlt : e0.timestamp <
        ((List.insertionSort newerLe (e0 :: rest)).getLast hne).timestamp :=
      hts _ hcase
    have hp : newerLe e0
        ((List.insertionSort newerLe (e0 :: rest)).getLast hne) := by
      rw [← hsplit] at hsorted
      exact (List.pairwise_append.mp hsorted).2.2 e0 hmem _ (by simp)
    exact absurd hp (not_le.mpr hlt)

/-- Fresh ids for the 1001-entry witness scenario (injective via
length). -/
def mkWitId (n : Nat) : String := String.mk (List.replicate n 'a')

/-- First recorded call of the witness scenario (the oldest entry). -/
def witCall0 : String × ℤ × String × String := ("e0", 0, "q", "r")

/-- The 1000 later calls of the witness scenario, with strictly
increasing timestamps. -/
def witCalls : List (String × ℤ × String × String) :=
  (List.range 1000).map (fun i => (mkWitId (i + 1), ((i : ℤ) + 1), "q", "r"))

lemma mkWitId_inj : Function.Injective mkWitId := by
  intro a b h
  have h1 := congrArg (fun s => s.data.length) h
  simpa [mkWitId] using h1

lemma witCalls_len : witCalls.length = 1000 := by
  simp [witCalls]

lemma witIds_nodup : ((witCall0 :: witCalls).map (fun c => c.1)).Nodup := by
  rw [List.map_cons, List.nodup_cons]
  constructor
  · intro hmem
    rw [witCalls, List.map_map] at hmem
    obtain ⟨i, _, he⟩ := List.mem_map.mp hmem
    have h1 : mkWitId (i + 1) = witCall0.1 := he
    have hdata := congrArg String.data h1
    simp [mkWitId, List.replicate_succ, witCall0] at hdata
  · rw [witCalls, List.map_map]
    apply List.Nodup.map ?_ (List.nodup_range 1000)
    intro a b h
    have h1 : mkWitId (a + 1) = mkWitId (b + 1) := h
    have := mkWitId_inj h1
    omega

lemma witCalls_ts : ∀ c ∈ witCalls, witCall0.2.1 < c.2.1 := by
  intro c hc
  rw [witCalls] at hc
  obtain ⟨i, _, rfl⟩ := List.mem_map.mp hc
  show (0 : ℤ) < (i : ℤ) + 1
  positivity

/-- C3: the persisted ledger never exceeds 1,000 entries and is always
ordered newest-first; moreover after recording 1,001 entries (distinct
fresh ids, strictly increasing timestamps) into an empty ledger, the
persisted ledger has exactly 1,000 entries and the oldest entry is
absent from it. -/
theorem spec_C3_ledgerCap :
    (∀ cm : LedgerState, (persistedLedger cm).length ≤ 1000 ∧
      List.Sorted newerLe (persistedLedger cm)) ∧
    (∀ (c0 : String × ℤ × String × String)
       (rest : List (String × ℤ × String × String)),
      rest.length = 1000 →
      ((c0 :: rest).map (fun c => c.1)).Nodup →
      (∀ c ∈ rest, c0.2.1 < c.2.1) →
      (persistedLedger (recordSeq ⟨[]⟩ (c0 :: rest))).length = 1000 ∧
      entryOf c0 ∉ persistedLedger (recordSeq ⟨[]⟩ (c0 :: rest))) := by
  constructor
  · intro cm
    constructor
    · unfold persistedLedger
      rw [List.length_take]
      exact min_le_left _ _
    · exact persistedLedger_sorted cm
  · intro c0 rest hlen hnd hts
    have hval : (recordSeq ⟨[]⟩ (c0 :: rest)).memoryEntries.map Prod.snd
        = entryOf c0 :: rest.map entryOf := by
      rw [recordSeq_entries hnd, List.map_map]
      simp [Function.comp]
    have hpl : persistedLedger (recordSeq ⟨[]⟩ (c0 :: rest))
        = (List.insertionSort newerLe
            (entryOf c0 :: rest.map entryOf)).take 1000 := by
      unfold persistedLedger
      rw [hval]
    constructor
    · rw [hpl, List.length_take]
      have h1 : (List.insertionSort newerLe
          (entryOf c0 :: rest.map entryOf)).length = 1001 := by
        rw [(List.perm_insertionSort _ _).length_eq]
        simp [hlen]
      rw [h1]
      norm_num
    · rw [hpl]
      apply oldest_not_mem_persisted (by simp [hlen])
      intro e he
      obtain ⟨c, hc, rfl⟩ := List.mem_map.mp he
      exact hts c hc

/-- Witness for C3 at a concrete family of 1,001 recorded entries. -/
theorem spec_C3_witness :
    (witCalls.length = 1000 ∧
     ((witCall0 :: witCalls).map (fun c => c.1)).Nodup ∧
     (∀ c ∈ witCalls, witCall0.2.1 < c.2.1)) ∧
    (persistedLedger (recordSeq ⟨[]⟩ (witCall0 :: witCalls))).length
      = 1000 ∧
    entryOf witCall0 ∉
      persistedLedger (recordSeq ⟨[]⟩ (witCall0 :: witCalls)) :=
  ⟨⟨witCalls_len, witIds_nodup, witCalls_ts⟩,
   spec_C3_ledgerCap.2 witCall0 witCalls witCalls_len witIds_nodup
     witCalls_ts⟩

/-- C4 is refuted: with the two-chunk store `exStore2` (built by
`addChunks([exC]); addChunks([exD])`), searching with the canonical
text of `exC` and `k = 2` returns `exD` first with distance exactly 0
and `exC` last with distance 1. Embedding the query appended it to the
corpus and recomputed IDF, so the query vector is the one-hot vector of
the bigram token `foo_bar` — parallel to `exD`'s stored embedding and
orthogonal to `exC`'s stored embedding, which is the zero vector
(every token of `exC`'s text had IDF 0 when it was indexed). -/
theorem spec_C4_counterexample :
    (searchResults exStore2 (createChunkText exC) 2).head?.map
        (fun r => r.chunk.id) = some "b" ∧
    (searchResults exStore2 (createChunkText exC) 2).map
        (fun r => (r.chunk.id, r.score)) = [("b", 0), ("a", 1)] := by
  constructor
  · rw [exSearchEval]
    rfl
  · rw [exSearchEval]
    rfl

open Classical in
/-- C4 amended: for any store containing a chunk `C`, `search` with any
query and `k ≥ 1` returns a first result whose score is nonnegative and
at most `C`'s own distance to the freshly embedded query; in particular,
when `C`'s stored embedding has distance 0 to the query embedding the
first result's score is exactly 0 (though a tied chunk may occupy the
first place). Because the query is appended to the corpus and IDF is
recomputed before the query vector is built, `C`'s stored embedding may
differ from the query's — `C` itself need not be first and its score
need not be near 0. -/
theorem spec_C4_searchRanking (s : Store) (q : String) (k : Nat)
    (cid : String) (sc : StoredChunk) (hk : 1 ≤ k)
    (hmem : (cid, sc) ∈ s.chunks) :
    ∃ r0, (searchResults s q k).head? = some r0 ∧ 0 ≤ r0.score ∧
      r0.score ≤ 1 - cosineSimilarity (generate s.gen q).1 sc.embedding ∧
      (1 - cosineSimilarity (generate s.gen q).1 sc.embedding = 0 →
        r0.score = 0) := by
  have hdef : searchResults s q k
      = (List.insertionSort scoreLe (s.chunks.map
          (fun p : String × StoredChunk =>
            (⟨p.2.chunk, 1 - cosineSimilarity ((generate s.gen q).1)
              p.2.embedding⟩ : VectorSearchResult)))).take k := rfl
  have hmemL : (⟨sc.chunk, 1 - cosineSimilarity ((generate s.gen q).1)
      sc.embedding⟩ : VectorSearchResult) ∈ s.chunks.map
        (fun p : String × StoredChunk =>
          (⟨p.2.chunk, 1 - cosineSimilarity ((generate s.gen q).1)
            p.2.embedding⟩ : VectorSearchResult)) :=
    List.mem_map_of_mem _ hmem
  have hperm := List.perm_insertionSort scoreLe (s.chunks.map
    (fun p : String × StoredChunk =>
      (⟨p.2.chunk, 1 - cosineSimilarity ((generate s.gen q).1)
        p.2.embedding⟩ : VectorSearchResult)))
  have hsorted := List.sorted_insertionSort scoreLe (s.chunks.map
    (fun p : String × StoredChunk =>
      (⟨p.2.chunk, 1 - cosineSimilarity ((generate s.gen q).1)
        p.2.embedding⟩ : VectorSearchResult)))
  have hmemS := hperm.mem_iff.mpr hmemL
  cases hsort : List.insertionSort scoreLe (s.chunks.map
    (fun p : String × StoredChunk =>
      (⟨p.2.chunk, 1 - cosineSimilarity ((generate s.gen q).1)
        p.2.embedding⟩ : VectorSearchResult))) with
  | nil =>
    rw [hsort] at hmemS
    exact absurd hmemS (List.not_mem_nil _)
  | cons x t =>
    obtain ⟨k', rfl⟩ : ∃ k', k = k' + 1 := ⟨k - 1, by omega⟩
    have hhead : (searchResults s q (k' + 1)).head? = some x := by
      rw [hdef, hsort]
      rfl
    have hx0 : 0 ≤ x.score := by
      have hxL := hperm.mem_iff.mp (hsort ▸ List.mem_cons_self x t)
      obtain ⟨p, _, hpx⟩ := List.mem_map.mp hxL
      rw [← hpx]
      exact cosineSimilarity_nonneg_score _ _
    have hxle : x.score ≤ 1 - cosineSimilarity ((generate s.gen q).1)
        sc.embedding := by
      rw [hsort] at hmemS hsorted
      exact sorted_head_le hsorted _ hmemS
    exact ⟨x, hhead, hx0, hxle, fun h0 =>
      le_antisymm (h0 ▸ hxle) hx0⟩

/-- Witness for the amended C4 at a hand-built one-chunk store. -/
theorem spec_C4_witness :
    (1 ≤ 1 ∧ ("a", StoredChunk.mk exC zeroVec) ∈ exWitStore.chunks) ∧
    ∃ r0, (searchResults exWitStore "query" 1).head? = some r0 ∧
      0 ≤ r0.score ∧
      r0.score ≤ 1 - cosineSimilarity (generate exWitStore.gen "query").1
        (StoredChunk.mk exC zeroVec).embedding ∧
      (1 - cosineSimilarity (generate exWitStore.gen "query").1
        (StoredChunk.mk exC zeroVec).embedding = 0 → r0.score = 0) :=
  ⟨⟨le_refl 1, by simp [exWitStore]⟩,
   spec_C4_searchRanking exWitStore "query" 1 "a"
     (StoredChunk.mk exC zeroVec) (le_refl 1) (by simp [exWitStore])⟩
